import Mathlib

/-!
Verification of the extraction → classification → block-conversion pipeline of
`notion_sync.py` (MEMORY.md → Notion knowledge-base sync).

The Python source is embedded shallowly: strings are Lean `String`s manipulated
through their character lists (`String.data`), so that the Python string
primitives (`startswith`, `strip`, `rstrip`, `lower`, slicing, `in`,
`count`, `rfind`, `split`) have direct, executable counterparts below.
Stateful scanning loops become folds or fuel-indexed structural recursions
(fuel-indexed so that the definitions reduce inside the kernel; the fuel
supplied by wrappers is an upper bound on the number of loop iterations the
Python loop can make, except where the Python loop provably does not
terminate, which the fuel model exposes as `none` for every fuel).
-/

namespace NotionSync

/-! ## Python string primitives -/

/-- Whitespace characters stripped by Python `str.strip()` / `str.rstrip()`. -/
def pyWs (c : Char) : Bool :=
  c == ' ' || c == '\t' || c == '\n' || c == '\r' || c == '\x0b' || c == '\x0c'

/-- Python `s.strip()`. -/
def pyStrip (s : String) : String :=
  String.mk (((s.data.dropWhile pyWs).reverse.dropWhile pyWs).reverse)

/-- Python `s.rstrip()`. -/
def pyRstrip (s : String) : String :=
  String.mk ((s.data.reverse.dropWhile pyWs).reverse)

/-- Python `s.lower()` (ASCII case folding, which covers all source inputs). -/
def pyLower (s : String) : String :=
  String.mk (s.data.map Char.toLower)

/-- Python slicing `s[:n]`. -/
def pyTake (s : String) (n : Nat) : String :=
  String.mk (s.data.take n)

/-- Python slicing `s[n:]`. -/
def pyDrop (s : String) (n : Nat) : String :=
  String.mk (s.data.drop n)

/-- Python `s.startswith(pre)`. -/
def pyStartsWith (s pre : String) : Bool :=
  pre.data.isPrefixOf s.data

/-- Helper for Python `sub in s`: does `needle` occur contiguously in the list? -/
def listContainsSub (needle : List Char) : List Char → Bool
  | [] => needle.isEmpty
  | c :: t => needle.isPrefixOf (c :: t) || listContainsSub needle t

/-- Python membership test `sub in s`. -/
def pyContains (s sub : String) : Bool :=
  listContainsSub sub.data s.data

/-- Python `s.count(c)` for a single-character pattern. -/
def pyCountChar (s : String) (c : Char) : Nat :=
  s.data.count c

/-- Python `text.split('\n')`. -/
def linesOf (text : String) : List String :=
  (text.data.splitOn '\n').map String.mk

/-- Python `'\n'.join(parts)`. -/
def joinNl (parts : List String) : String :=
  String.intercalate "\n" parts

/-! ## Notion property limits (source constants) -/

def MAX_BODY_LENGTH : Nat := 2000
def MAX_TITLE_LENGTH : Nat := 100
def MAX_TAGS : Nat := 7

/-! ## Content blocks (`MarkdownToNotion`)

A `Block` is the Lean image of the JSON block dictionaries built by the
`_create_*` helpers; only the type tag, the text payload and the code
language are semantically relevant, so the JSON scaffolding is dropped. -/

inductive Block where
  | heading (level : Nat) (text : String)
  | paragraph (text : String)
  | bulleted_list_item (text : String)
  | quote (text : String)
  | code (text : String) (language : String)
  | divider
  deriving DecidableEq

/-- Source `_create_heading`: text truncated to 2000 before emission. -/
def create_heading (level : Nat) (text : String) : Block :=
  .heading level (pyTake text 2000)

/-- Source `_create_paragraph`. -/
def create_paragraph (text : String) : Block :=
  .paragraph (pyTake text 2000)

/-- Source `_create_list_item`. -/
def create_list_item (text : String) : Block :=
  .bulleted_list_item (pyTake text 2000)

/-- Source `_create_quote`. -/
def create_quote (text : String) : Block :=
  .quote (pyTake text 2000)

/-- Source `_create_code`: a falsy (absent or empty) language becomes
"plain text". -/
def create_code (c : String) (language : Option String) : Block :=
  .code (pyTake c 2000)
    (match language with
     | some l => if l = "" then "plain text" else l
     | none => "plain text")

/-- Source `_create_divider`. -/
def create_divider : Block := .divider

/-- Python `re.match(r'^\d+\. ', line)`: when the line starts with one or
more digits followed by ". ", returns the length of that matched prefix. -/
def numberedPrefixLen (s : String) : Option Nat :=
  let ds := s.data.takeWhile Char.isDigit
  if ds.isEmpty then none
  else if ['.', ' '].isPrefixOf (s.data.drop ds.length) then some (ds.length + 2)
  else none

/-- Loop body of source `_parse_list`, structurally recursive on fuel.
The wrapper passes fuel `lines.length - start`; the Python loop increments
`i` by exactly one per iteration, so it makes at most that many iterations. -/
def parse_list_go (lines : List String) (list_type : String) : Nat → Nat → List Block
  | _, 0 => []
  | i, fuel+1 =>
    if h : i < lines.length then
      let line := pyRstrip lines[i]
      if pyStrip line = "" then parse_list_go lines list_type (i+1) fuel
      else if list_type == "-" && pyStartsWith line "- " then
        create_list_item (pyStrip (pyDrop line 2)) :: parse_list_go lines list_type (i+1) fuel
      else if list_type == "numbered" then
        match numberedPrefixLen line with
        | some plen =>
          create_list_item (pyStrip (pyDrop line plen)) :: parse_list_go lines list_type (i+1) fuel
        | none => []
      else []
    else []

/-- Source `_parse_list(lines, start, list_type)`. -/
def parse_list (lines : List String) (start : Nat) (list_type : String) : List Block :=
  parse_list_go lines list_type start (lines.length - start)

/-- Loop body of source `_skip_list`, structurally recursive on fuel. -/
def skip_list_go (lines : List String) (list_type : String) : Nat → Nat → Nat
  | i, 0 => i
  | i, fuel+1 =>
    if h : i < lines.length then
      let line := pyRstrip lines[i]
      if pyStrip line = "" then skip_list_go lines list_type (i+1) fuel
      else if list_type == "-" && pyStartsWith line "- " then
        skip_list_go lines list_type (i+1) fuel
      else if list_type == "numbered" && (numberedPrefixLen line).isSome then
        skip_list_go lines list_type (i+1) fuel
      else i
    else i

/-- Source `_skip_list(lines, start, list_type)`. -/
def skip_list (lines : List String) (start : Nat) (list_type : String) : Nat :=
  skip_list_go lines list_type start (lines.length - start)

/-- Loop body of source `_parse_code_block`. -/
def parse_code_block_go (lines : List String) : Nat → Nat → List String × Nat
  | i, 0 => ([], i)
  | i, fuel+1 =>
    if h : i < lines.length then
      if pyStrip lines[i] = "```" then ([], i + 1)
      else
        let r := parse_code_block_go lines (i+1) fuel
        (pyRstrip lines[i] :: r.1, r.2)
    else ([], i)

/-- Source `_parse_code_block(lines, start)`: collects the fenced lines and
returns the next scan index. -/
def parse_code_block (lines : List String) (start : Nat) : List String × Nat :=
  parse_code_block_go lines (start + 1) (lines.length - (start + 1))

/-- Inner `while` of the pipe-table branch of `convert`: consumes following
lines containing a pipe, accumulating the raw table text. -/
def table_go (lines : List String) : Nat → Nat → String → String × Nat
  | j, 0, acc => (acc, j)
  | j, fuel+1, acc =>
    if h : j < lines.length then
      if pyContains lines[j] "|" then table_go lines (j+1) fuel (acc ++ "\n" ++ lines[j])
      else (acc, j)
    else (acc, j)

/-- The `while i < len(lines)` loop of source `MarkdownToNotion.convert`.
Unlike the helper loops this loop does not always advance `i`
(`i = self._skip_list(lines, i, '-')` can return `i` unchanged), so it is
given explicit fuel and `none` marks fuel exhaustion: a run of the Python
loop that terminates is reproduced by every sufficiently large fuel, and an
input on which every fuel yields `none` is an input on which the Python
loop never terminates. -/
def convertLoop (lines : List String) : Nat → Nat → List Block → Option (List Block)
  | _, 0, _ => none
  | i, fuel+1, blocks =>
    if h : i < lines.length then
      let line := pyRstrip lines[i]
      if pyStrip line = "" then convertLoop lines (i+1) fuel blocks
      else if pyStartsWith line "# " then
        convertLoop lines (i+1) fuel (blocks ++ [create_heading 1 (pyDrop line 2)])
      else if pyStartsWith line "## " then
        convertLoop lines (i+1) fuel (blocks ++ [create_heading 2 (pyDrop line 3)])
      else if pyStartsWith line "### " then
        convertLoop lines (i+1) fuel (blocks ++ [create_heading 3 (pyDrop line 4)])
      else if pyStartsWith line "- " || pyStartsWith line "* " then
        convertLoop lines (skip_list lines i "-") fuel (blocks ++ parse_list lines i "-")
      else if (numberedPrefixLen line).isSome then
        convertLoop lines (skip_list lines i "numbered") fuel (blocks ++ parse_list lines i "numbered")
      else if pyStartsWith line "> " then
        convertLoop lines (i+1) fuel (blocks ++ [create_quote (pyDrop line 2)])
      else if pyStartsWith line "```" then
        let r := parse_code_block lines i
        let rawLine := lines[i]
        let lang := if 3 < rawLine.length then pyStrip (pyDrop rawLine 3) else ""
        convertLoop lines r.2 fuel
          (blocks ++ [create_code (joinNl r.1) (if lang = "" then none else some lang)])
      else if pyStrip line = "---" || pyStrip line = "***" || pyStrip line = "___" then
        convertLoop lines (i+1) fuel (blocks ++ [create_divider])
      else if pyContains line "|" && 3 ≤ pyCountChar line '|' then
        let r := table_go lines (i+1) (lines.length - (i+1)) line
        convertLoop lines r.2 fuel (blocks ++ [create_code r.1 (some "markdown-table")])
      else
        convertLoop lines (i+1) fuel (blocks ++ [create_paragraph line])
    else some blocks

/-- Source `MarkdownToNotion.convert(text)`. The supplied fuel exceeds any
possible number of iterations of a terminating run of the Python loop
(each iteration either consumes at least one line or returns). -/
def convert (text : String) : Option (List Block) :=
  let lines := linesOf text
  convertLoop lines 0 (text.length + lines.length + 1) []

/-! ## Claims C1 and C2: the `'* '` list branch -/

/-- C1: the claim states that `MarkdownToNotion.convert` terminates on every
input, in particular on lines entering the list-run branch without matching
the run predicate, such as a line starting with `'* '`. The code violates
this: on the input consisting of the single line `"* a"` the scan index
never advances (the dash-run helpers match only `'- '`), so the loop state
repeats and no amount of fuel completes the conversion. -/
theorem convert_diverges_on_star_line :
    ∀ (fuel : Nat) (blocks : List Block), convertLoop ["* a"] 0 fuel blocks = none := by
  intro fuel
  induction fuel with
  | zero => intro blocks; rfl
  | succ n ih =>
    intro blocks
    rw [show convertLoop ["* a"] 0 (n+1) blocks
          = convertLoop ["* a"] 0 n (blocks ++ []) from rfl,
        List.append_nil]
    exact ih blocks

/-- C2: the claim states that a body line beginning with `'* '` yields a
ListItem block and that conversion advances past the run. The code violates
both parts: such a line does enter the unordered-list branch, yet
`_parse_list` (called with list type `'-'`) emits no block for it and
`_skip_list` does not advance the index. -/
theorem star_line_emits_no_list_item :
    (pyStartsWith (pyRstrip "* item") "- " || pyStartsWith (pyRstrip "* item") "* ") = true ∧
    parse_list ["* item"] 0 "-" = [] ∧
    skip_list ["* item"] 0 "-" = 0 := by
  decide

/-! ## Claim C3: how a list run really ends

The spec states that blank lines interrupt a list run. In the code both
`_parse_list` and `_skip_list` *skip* blank lines and keep consuming
matching list lines beyond them; the run ends only at the first non-blank
line that fails the list-type predicate. The definitions below give an
independent characterization of that behaviour (a global least stopping
index, rather than the sequential scans of the source) against which the
source loops are proved. -/

/-- A raw line at which the run-consumption loops stop: non-blank (after
`rstrip`) and failing the list-type predicate. -/
def list_run_stop (list_type : String) (rawLine : String) : Bool :=
  let line := pyRstrip rawLine
  if pyStrip line = "" then false
  else if list_type == "-" && pyStartsWith line "- " then false
  else if list_type == "numbered" && (numberedPrefixLen line).isSome then false
  else true

/-- The first index at or after `start` holding a stopping line, or
`lines.length` if none exists: stated via a filtered index range, not via
the sequential scan of the source. -/
def list_run_end (lines : List String) (start : Nat) (list_type : String) : Nat :=
  ((((List.range' start (lines.length - start)).filter
      (fun j => list_run_stop list_type (lines.getD j ""))).head?).getD lines.length)

/-- The block a consumed line contributes: nothing for a blank line, a
ListItem with the marker stripped for a matching line. -/
def list_item_of (list_type : String) (rawLine : String) : Option Block :=
  let line := pyRstrip rawLine
  if pyStrip line = "" then none
  else if list_type == "-" && pyStartsWith line "- " then
    some (create_list_item (pyStrip (pyDrop line 2)))
  else if list_type == "numbered" then
    match numberedPrefixLen line with
    | some plen => some (create_list_item (pyStrip (pyDrop line plen)))
    | none => none
  else none

theorem filter_head_getD_cons (p : Nat → Bool) (a d : Nat) (l : List Nat) :
    ((List.filter p (a :: l)).head?).getD d
      = if p a then a else ((List.filter p l).head?).getD d := by
  by_cases hp : p a <;> simp [List.filter_cons, hp]

theorem list_run_end_of_ge {lines : List String} {start : Nat} {lt : String}
    (h : lines.length ≤ start) : list_run_end lines start lt = lines.length := by
  unfold list_run_end
  have h0 : lines.length - start = 0 := by omega
  rw [h0]
  rfl

theorem list_run_end_step {lines : List String} {start : Nat} {lt : String}
    (h : start < lines.length) :
    list_run_end lines start lt =
      if list_run_stop lt (lines.getD start "") then start
      else list_run_end lines (start+1) lt := by
  unfold list_run_end
  have h1 : lines.length - start = (lines.length - (start+1)) + 1 := by omega
  rw [h1, show List.range' start ((lines.length - (start+1)) + 1)
        = start :: List.range' (start+1) (lines.length - (start+1)) from rfl]
  simp only [filter_head_getD_cons]

theorem list_run_end_ge {lines : List String} {start : Nat} {lt : String}
    (h : start ≤ lines.length) : start ≤ list_run_end lines start lt := by
  unfold list_run_end
  cases hh : (((List.range' start (lines.length - start)).filter
      (fun j => list_run_stop lt (lines.getD j ""))).head?) with
  | none => simpa using h
  | some j =>
    have hj := List.mem_of_mem_head? hh
    rw [List.mem_filter] at hj
    have := List.mem_range'.mp hj.1
    obtain ⟨i, _, hji⟩ := this
    simp only [Option.getD_some]
    omega

theorem list_run_end_le {lines : List String} {start : Nat} {lt : String} :
    list_run_end lines start lt ≤ lines.length := by
  unfold list_run_end
  cases hh : (((List.range' start (lines.length - start)).filter
      (fun j => list_run_stop lt (lines.getD j ""))).head?) with
  | none => simp
  | some j =>
    have hj := List.mem_of_mem_head? hh
    rw [List.mem_filter] at hj
    have := List.mem_range'.mp hj.1
    obtain ⟨i, hi, hji⟩ := this
    simp only [Option.getD_some]
    omega

theorem run_go_spec (lines : List String) (lt : String) :
    ∀ fuel start, lines.length - start = fuel → start ≤ lines.length →
      skip_list_go lines lt start fuel = list_run_end lines start lt ∧
      parse_list_go lines lt start fuel
        = ((lines.take (list_run_end lines start lt)).drop start).filterMap (list_item_of lt) := by
  intro fuel
  induction fuel with
  | zero =>
    intro start hf hle
    have hstart : start = lines.length := by omega
    subst hstart
    rw [list_run_end_of_ge (le_refl _)]
    constructor
    · rfl
    · have : (lines.take lines.length).drop lines.length = [] :=
        List.drop_eq_nil_of_le (by simp)
      rw [this]
      rfl
  | succ n ih =>
    intro start hf hle
    have hlt : start < lines.length := by omega
    have hf1 : lines.length - (start+1) = n := by omega
    have hle1 : start + 1 ≤ lines.length := hlt
    have hget : lines.getD start "" = lines[start] := List.getD_eq_getElem lines "" hlt
    have hstep := @list_run_end_step lines start lt hlt
    rw [hget] at hstep
    have hsegment : ∀ re : Nat, start + 1 ≤ re → re ≤ lines.length →
        (lines.take re).drop start = lines[start] :: (lines.take re).drop (start+1) := by
      intro re hre hrele
      have hlen : start < (lines.take re).length := by
        rw [List.length_take]; omega
      rw [List.drop_eq_getElem_cons hlen, List.getElem_take]
    have hempty : (lines.take start).drop start = [] :=
      List.drop_eq_nil_of_le (by rw [List.length_take]; omega)
    obtain ⟨ihs, ihp⟩ := ih (start+1) hf1 hle1
    by_cases hb : pyStrip (pyRstrip lines[start]) = ""
    · -- blank line: skipped by all three scanners, the run continues
      have hstop : list_run_stop lt lines[start] = false := by
        simp only [list_run_stop]
        rw [if_pos hb]
      have hitem : list_item_of lt lines[start] = none := by
        simp only [list_item_of]
        rw [if_pos hb]
      rw [hstep, hstop, if_neg (by simp)]
      refine ⟨?_, ?_⟩
      · simp only [skip_list_go, dif_pos hlt]
        rw [if_pos hb]
        exact ihs
      · simp only [parse_list_go, dif_pos hlt]
        rw [if_pos hb, ihp,
            hsegment _ (list_run_end_ge hle1) list_run_end_le]
        simp only [List.filterMap_cons, hitem]
    · by_cases hd : (lt == "-" && pyStartsWith (pyRstrip lines[start]) "- ") = true
      · -- a line matching the dash predicate: consumed, run continues
        have hstop : list_run_stop lt lines[start] = false := by
          simp only [list_run_stop]
          rw [if_neg hb, if_pos hd]
        have hitem : list_item_of lt lines[start]
            = some (create_list_item (pyStrip (pyDrop (pyRstrip lines[start]) 2))) := by
          simp only [list_item_of]
          rw [if_neg hb, if_pos hd]
        rw [hstep, hstop, if_neg (by simp)]
        refine ⟨?_, ?_⟩
        · simp only [skip_list_go, dif_pos hlt]
          rw [if_neg hb, if_pos hd]
          exact ihs
        · simp only [parse_list_go, dif_pos hlt]
          rw [if_neg hb, if_pos hd, ihp,
              hsegment _ (list_run_end_ge hle1) list_run_end_le]
          simp only [List.filterMap_cons, hitem]
      · have hdn : ¬ (lt == "-" && pyStartsWith (pyRstrip lines[start]) "- ") = true := hd
        by_cases hn : (lt == "numbered") = true
        · cases hnum : numberedPrefixLen (pyRstrip lines[start]) with
          | some plen =>
            -- a line matching the numbered predicate: consumed, run continues
            have hcond : (lt == "numbered"
                && (numberedPrefixLen (pyRstrip lines[start])).isSome) = true := by
              rw [hn, hnum]; rfl
            have hstop : list_run_stop lt lines[start] = false := by
              simp only [list_run_stop]
              rw [if_neg hb, if_neg hdn, if_pos hcond]
            have hitem : list_item_of lt lines[start]
                = some (create_list_item (pyStrip (pyDrop (pyRstrip lines[start]) plen))) := by
              simp only [list_item_of]
              rw [if_neg hb, if_neg hdn, if_pos hn, hnum]
            rw [hstep, hstop, if_neg (by simp)]
            refine ⟨?_, ?_⟩
            · simp only [skip_list_go, dif_pos hlt]
              rw [if_neg hb, if_neg hdn, if_pos hcond]
              exact ihs
            · simp only [parse_list_go, dif_pos hlt]
              rw [if_neg hb, if_neg hdn, if_pos hn, hnum]
              rw [ihp, hsegment _ (list_run_end_ge hle1) list_run_end_le]
              simp only [List.filterMap_cons, hitem]
          | none =>
            -- numbered mode, non-matching non-blank line: the run stops here
            have hcond : ¬ (lt == "numbered"
                && (numberedPrefixLen (pyRstrip lines[start])).isSome) = true := by
              rw [hn, hnum]; simp
            have hstop : list_run_stop lt lines[start] = true := by
              simp only [list_run_stop]
              rw [if_neg hb, if_neg hdn, if_neg hcond]
            rw [hstep, hstop, if_pos rfl]
            refine ⟨?_, ?_⟩
            · simp only [skip_list_go, dif_pos hlt]
              rw [if_neg hb, if_neg hdn, if_neg hcond]
            · simp only [parse_list_go, dif_pos hlt]
              rw [if_neg hb, if_neg hdn, if_pos hn, hnum, hempty]
              rfl
        · -- neither predicate applies: the run stops here
          have hnn : ¬ (lt == "numbered") = true := hn
          have hcond : ¬ (lt == "numbered"
              && (numberedPrefixLen (pyRstrip lines[start])).isSome) = true := by
            intro hcontra
            exact hnn (Bool.and_elim_left hcontra)
          have hstop : list_run_stop lt lines[start] = true := by
            simp only [list_run_stop]
            rw [if_neg hb, if_neg hdn, if_neg hcond]
          rw [hstep, hstop, if_pos rfl]
          refine ⟨?_, ?_⟩
          · simp only [skip_list_go, dif_pos hlt]
            rw [if_neg hb, if_neg hdn, if_neg hcond]
          · simp only [parse_list_go, dif_pos hlt]
            rw [if_neg hb, if_neg hdn, if_neg hnn, hempty]
            rfl

/-- C3 counterexample: the claim states that a blank line following a list
line interrupts the run. In the code the run-consumption starting at
`"- a"` skips the blank line and consumes `"- b"` after it as part of the
same run: `_parse_list` emits both items and `_skip_list` jumps past all
three lines. -/
theorem blank_does_not_interrupt_list_run :
    parse_list ["- a", "", "- b"] 0 "-"
      = [Block.bulleted_list_item "a", Block.bulleted_list_item "b"] ∧
    skip_list ["- a", "", "- b"] 0 "-" = 3 := by
  decide

/-- C3 amended: the run-consumption starting at a list line skips blank
lines and keeps consuming lines matching the same list-type predicate
beyond them as part of the same run; it stops exactly at the first
non-blank line failing the predicate (or at end of input), and the
consumed lines contribute exactly one ListItem per matching line. -/
theorem list_run_characterization (lines : List String) (start : Nat) (list_type : String)
    (h : start ≤ lines.length) :
    skip_list lines start list_type = list_run_end lines start list_type ∧
    parse_list lines start list_type
      = ((lines.take (list_run_end lines start list_type)).drop start).filterMap
          (list_item_of list_type) :=
  run_go_spec lines list_type (lines.length - start) start rfl h

/-- Witness for `list_run_characterization` at a concrete input. -/
theorem list_run_characterization_witness :
    0 ≤ (["- x", "", "1. y", "stop"] : List String).length ∧
    (skip_list ["- x", "", "1. y", "stop"] 0 "-"
        = list_run_end ["- x", "", "1. y", "stop"] 0 "-" ∧
     parse_list ["- x", "", "1. y", "stop"] 0 "-"
        = (((["- x", "", "1. y", "stop"] : List String).take
              (list_run_end ["- x", "", "1. y", "stop"] 0 "-")).drop 0).filterMap
            (list_item_of "-")) :=
  ⟨by decide, list_run_characterization ["- x", "", "1. y", "stop"] 0 "-" (by decide)⟩

/-! ## Claim C4: block-sequence fidelity -/

/-- C4: converting `"## H\n- a\n- b\n\npara"` yields exactly
`[Heading(2,"H"), ListItem("a"), ListItem("b"), Paragraph("para")]`. -/
theorem convert_block_sequence :
    convert "## H\n- a\n- b\n\npara"
      = some [Block.heading 2 "H", Block.bulleted_list_item "a",
              Block.bulleted_list_item "b", Block.paragraph "para"] := by
  decide

/-! ## The extractor (`MemoryParser`)

Entries are the Python dicts built by `parse_memory_file` /
`parse_daily_files`. The Python code appends the *same* dict object
(`current_entry`) to the result list at every flush and keeps mutating it,
so the embedding keeps an explicit store of entry objects and a list of
emitted store indices: a late mutation of `current_entry` is visible in
every earlier emission of the same object, exactly as in Python. -/

structure Entry where
  title : String
  body : String
  source : String
  file : String
  date : Option String
  section_name : String
  deriving DecidableEq, Inhabited

/-- Scanner state of the per-file parse loops: the store of entry objects
(`store`, indexed by allocation order), the emitted indices (`outIds`,
one per `entries.append(current_entry)`), and the Python loop variables
`current_section`, `current_entry` (as a store index) and `entry_buffer`. -/
structure PState where
  store : List Entry
  outIds : List Nat
  current_section : Option String
  current : Option Nat
  buffer : List String
  deriving DecidableEq

def initPState : PState := ⟨[], [], none, none, []⟩

/-- Python truthiness of an optional string (`if current_section:`). -/
def pyTruthyStr (o : Option String) : Bool :=
  match o with
  | none => false
  | some s => !(s == "")

/-- The flush step `current_entry['body'] = '\n'.join(entry_buffer).strip();
entries.append(current_entry); entry_buffer = []`, guarded by
`if current_entry and entry_buffer:` exactly as in the source. -/
def flushEntry (st : PState) : PState :=
  match st.current with
  | some cid =>
    if st.buffer.isEmpty then st
    else
      { st with
        store := st.store.set cid { (st.store.getD cid default) with
                                      body := pyStrip (joinNl st.buffer) },
        outIds := st.outIds ++ [cid],
        buffer := [] }
  | none => st

/-- Classification of one scanned line by the leading-marker tests of the
source loops (`line.startswith('## ')` is tested first, then
`line.startswith('### ')`; the two prefixes are mutually exclusive). -/
inductive LineKind where
  | sectionHead (title : String)
  | entryHead (title : String)
  | plain
  deriving DecidableEq

def lineKind (line : String) : LineKind :=
  if pyStartsWith line "## " then .sectionHead (pyStrip (pyDrop line 3))
  else if pyStartsWith line "### " then .entryHead (pyStrip (pyDrop line 4))
  else .plain

/-- The shared loop body of `parse_memory_file` and `parse_daily_files`
(the two Python loops are line-for-line identical up to the recognition
predicate and the fields of the freshly opened entry dict, supplied here
as `recognize` and `mkE`). Note what the source does and does not do at a
`## ` line: it flushes only when the buffer is non-empty and it never
resets `current_entry`. -/
def parseStep (recognize : String → Bool) (mkE : String → String → Entry)
    (st : PState) (line : String) : PState :=
  match lineKind line with
  | .sectionHead t =>
    let st1 := flushEntry st
    { st1 with current_section := if recognize t then some t else none }
  | .entryHead t =>
    if pyTruthyStr st.current_section then
      let st1 := flushEntry st
      { st1 with
        store := st1.store ++ [mkE t (st1.current_section.getD "")],
        current := some st1.store.length }
    else if st.current.isSome then { st with buffer := st.buffer ++ [line] } else st
  | .plain =>
    if st.current.isSome then { st with buffer := st.buffer ++ [line] } else st

/-- Final result of a parse: the emitted objects read back from the final
store (so later mutations of a flushed-again object are reflected in its
earlier emissions, as with Python's aliased dicts). -/
def entriesOf (st : PState) : List Entry :=
  st.outIds.map (fun i => st.store.getD i default)

/-- Recognition whitelist of `parse_memory_file` (case-sensitive
`kw in section_title`). -/
def recognizedMemorySection (t : String) : Bool :=
  ["Standard", "Protocol", "Lesson", "Framework"].any (fun kw => pyContains t kw)

/-- The entry dict opened by `parse_memory_file` at a `### ` line (its
`body` key is absent until the first flush; the placeholder `""` here is
never read because `entriesOf` only reads flushed indices). -/
def mkMemoryEntry (t : String) (sec : String) : Entry :=
  { title := t, body := "", source := "MEMORY.md", file := "MEMORY.md",
    date := none, section_name := sec }

def memStep : PState → String → PState :=
  parseStep recognizedMemorySection mkMemoryEntry

def processMemLines (st : PState) (lines : List String) : PState :=
  lines.foldl memStep st

/-- Source `MemoryParser.parse_memory_file` on the split lines of the file
content (the final `if current_entry and entry_buffer:` flush included). -/
def parse_memory_lines (lines : List String) : List Entry :=
  entriesOf (flushEntry (processMemLines initPState lines))

/-- Source `MemoryParser.parse_memory_file` on the file content. -/
def parse_memory_file (content : String) : List Entry :=
  parse_memory_lines (linesOf content)

/-- Recognition whitelist of `parse_daily_files` (case-insensitive:
keywords matched inside `section_title.lower()`). -/
def recognizedDailySection (t : String) : Bool :=
  ["research", "finding", "lesson", "decision", "insight", "pattern",
   "key takeaway", "benchmark"].any (fun kw => pyContains (pyLower t) kw)

/-- The entry dict opened by `parse_daily_files` at a `### ` line. -/
def mkDailyEntry (dateStr : String) (t : String) (sec : String) : Entry :=
  { title := t, body := "", source := "daily", file := dateStr ++ ".md",
    date := some dateStr, section_name := sec }

def dailyStep (dateStr : String) : PState → String → PState :=
  parseStep recognizedDailySection (mkDailyEntry dateStr)

/-- One file's scan inside `parse_daily_files` (state is re-initialised per
file, exactly as the Python loop re-binds its loop variables per file). -/
def parse_daily_lines (dateStr : String) (lines : List String) : List Entry :=
  entriesOf (flushEntry (lines.foldl (dailyStep dateStr) initPState))

/-- Source `MemoryParser.parse_daily_files`: the lookback-window directory
scan is environment input, so the function is given the list of
`(date string, content)` pairs of the daily files that exist, in the scan
order of the source loop; missing files simply do not appear. -/
def parse_daily_files (files : List (String × String)) : List Entry :=
  files.foldl (fun acc f => acc ++ parse_daily_lines f.1 (linesOf f.2)) []

/-! ## Deduplication (`extract_all_entries`) -/

/-- The deduplication key: the source hashes the formatted string
`title|date-or-empty|body-first-200` with md5 and keeps 16 hex digits;
the hash step is modelled as injective on the formatted string (md5
collisions between distinct key strings are not representable here), so
the key is the formatted string itself. -/
def dedupKey (e : Entry) : String :=
  e.title ++ "|" ++ e.date.getD "" ++ "|" ++ pyTake e.body 200

/-- The `seen`-set loop of `extract_all_entries`. -/
def dedupEntries : List String → List Entry → List Entry
  | _, [] => []
  | seen, e :: rest =>
    if seen.contains (dedupKey e) then dedupEntries seen rest
    else e :: dedupEntries (dedupKey e :: seen) rest

/-- Source `MemoryParser.extract_all_entries`: aggregate entries, then
daily entries, then a single dedup pass over the concatenation. A missing
`MEMORY.md` contributes no entries (`none` content). -/
def extract_all_entries (memoryContent : Option String)
    (dailyFiles : List (String × String)) : List Entry :=
  let all := (match memoryContent with
              | some c => parse_memory_file c
              | none => []) ++ parse_daily_files dailyFiles
  dedupEntries [] all

/-! ### Claim C5: dedup keeps exactly the first occurrence of each key -/

theorem dedupEntries_sublist (seen : List String) (l : List Entry) :
    (dedupEntries seen l).Sublist l := by
  induction l generalizing seen with
  | nil => exact List.Sublist.refl []
  | cons e rest ih =>
    simp only [dedupEntries]
    by_cases hs : seen.contains (dedupKey e)
    · rw [if_pos hs]
      exact (ih seen).cons e
    · rw [if_neg hs]
      exact (ih (dedupKey e :: seen)).cons₂ e

theorem dedupEntries_not_seen (seen : List String) (l : List Entry) :
    ∀ x ∈ dedupEntries seen l, seen.contains (dedupKey x) = false := by
  induction l generalizing seen with
  | nil => intro x hx; cases hx
  | cons e rest ih =>
    intro x hx
    simp only [dedupEntries] at hx
    by_cases hs : seen.contains (dedupKey e)
    · rw [if_pos hs] at hx
      exact ih seen x hx
    · rw [if_neg hs] at hx
      rcases List.mem_cons.mp hx with hxe | hxr
      · subst hxe
        exact Bool.eq_false_iff.mpr hs
      · have := ih (dedupKey e :: seen) x hxr
        rw [List.contains_cons] at this
        exact (Bool.or_eq_false_iff.mp this).2

theorem dedupEntries_pairwise (seen : List String) (l : List Entry) :
    (dedupEntries seen l).Pairwise (fun a b => dedupKey a ≠ dedupKey b) := by
  induction l generalizing seen with
  | nil => exact List.Pairwise.nil
  | cons e rest ih =>
    simp only [dedupEntries]
    by_cases hs : seen.contains (dedupKey e)
    · rw [if_pos hs]
      exact ih seen
    · rw [if_neg hs]
      refine List.Pairwise.cons ?_ (ih (dedupKey e :: seen))
      intro b hb hcontra
      have := dedupEntries_not_seen (dedupKey e :: seen) rest b hb
      rw [List.contains_cons, Bool.or_eq_false_iff] at this
      have h1 := this.1
      rw [← hcontra] at h1
      simp at h1

theorem dedupEntries_covers (seen : List String) (l : List Entry) :
    ∀ e ∈ l, seen.contains (dedupKey e) = true ∨
      ∃ x ∈ dedupEntries seen l, dedupKey x = dedupKey e := by
  induction l generalizing seen with
  | nil => intro e he; cases he
  | cons a rest ih =>
    intro e he
    simp only [dedupEntries]
    by_cases hs : seen.contains (dedupKey a)
    · rw [if_pos hs]
      rcases List.mem_cons.mp he with hea | her
      · subst hea; exact Or.inl hs
      · exact ih seen e her
    · rw [if_neg hs]
      rcases List.mem_cons.mp he with hea | her
      · exact Or.inr ⟨a, List.mem_cons_self a _, by rw [hea]⟩
      · rcases ih (dedupKey a :: seen) e her with hseen | ⟨x, hx, hkey⟩
        · rw [List.contains_cons] at hseen
          rcases Bool.or_eq_true_iff.mp hseen with h1 | h2
          · exact Or.inr ⟨a, List.mem_cons_self a _, (eq_of_beq h1).symm⟩
          · exact Or.inl h2
        · exact Or.inr ⟨x, List.mem_cons_of_mem a hx, hkey⟩

theorem dedupEntries_first (seen : List String) (l : List Entry) :
    ∀ x ∈ dedupEntries seen l,
      l.find? (fun a => dedupKey a == dedupKey x) = some x := by
  induction l generalizing seen with
  | nil => intro x hx; cases hx
  | cons a rest ih =>
    intro x hx
    simp only [dedupEntries] at hx
    by_cases hs : seen.contains (dedupKey a)
    · rw [if_pos hs] at hx
      have hxs := dedupEntries_not_seen seen rest x hx
      have hne : (dedupKey a == dedupKey x) = false := by
        apply Bool.eq_false_iff.mpr
        intro hcontra
        have : dedupKey a = dedupKey x := eq_of_beq hcontra
        rw [this] at hs
        rw [hxs] at hs
        cases hs
      rw [List.find?_cons, hne]
      exact ih seen x hx
    · rw [if_neg hs] at hx
      rcases List.mem_cons.mp hx with hxa | hxr
      · subst hxa
        rw [List.find?_cons, show (dedupKey x == dedupKey x) = true by simp]
      · have hxs := dedupEntries_not_seen (dedupKey a :: seen) rest x hxr
        rw [List.contains_cons, Bool.or_eq_false_iff] at hxs
        have hne : (dedupKey a == dedupKey x) = false := by
          apply Bool.eq_false_iff.mpr
          intro hcontra
          have heq : dedupKey a = dedupKey x := eq_of_beq hcontra
          have h1 := hxs.1
          rw [← heq] at h1
          simp at h1
        rw [List.find?_cons, hne]
        exact ih (dedupKey a :: seen) x hxr

/-- C5: for every pair of extracted entries with identical
`(title, date-or-empty, first 200 characters of body)` key,
`extract_all_entries` keeps only the first occurrence: the result is a
subsequence of the concatenated Aggregate-then-Periodic entry list
(first-occurrence order preserved, dedup applied once across the union),
its keys are pairwise distinct, every key of the union is represented,
and each survivor is the first entry of the union carrying its key. -/
theorem extract_all_entries_dedup (memoryContent : Option String)
    (dailyFiles : List (String × String)) :
    (extract_all_entries memoryContent dailyFiles).Sublist
        ((match memoryContent with
          | some c => parse_memory_file c
          | none => []) ++ parse_daily_files dailyFiles) ∧
    (extract_all_entries memoryContent dailyFiles).Pairwise
        (fun a b => dedupKey a ≠ dedupKey b) ∧
    (∀ e ∈ (match memoryContent with
            | some c => parse_memory_file c
            | none => []) ++ parse_daily_files dailyFiles,
       ∃ x ∈ extract_all_entries memoryContent dailyFiles, dedupKey x = dedupKey e) ∧
    (∀ x ∈ extract_all_entries memoryContent dailyFiles,
       ((match memoryContent with
         | some c => parse_memory_file c
         | none => []) ++ parse_daily_files dailyFiles).find?
           (fun a => dedupKey a == dedupKey x) = some x) := by
  refine ⟨dedupEntries_sublist [] _, dedupEntries_pairwise [] _, ?_, ?_⟩
  · intro e he
    rcases dedupEntries_covers [] _ e he with hseen | hfound
    · cases hseen
    · exact hfound
  · intro x hx
    exact dedupEntries_first [] _ x hx

/-! ### Claim C6: a heading with no following line produces no entry -/

/-- C6 counterexample: the claim states that every level-3 heading inside a
recognized section produces an Entry, the body possibly empty (e.g. when
the heading is immediately followed by end of input). In the code the
flush is guarded by `if current_entry and entry_buffer:`, so the heading
`### A` directly before end of input — inside the recognized section
`Lesson` — produces no entry at all. -/
theorem entry_without_body_lines_dropped :
    lineKind "## Lesson" = LineKind.sectionHead "Lesson" ∧
    recognizedMemorySection "Lesson" = true ∧
    lineKind "### A" = LineKind.entryHead "A" ∧
    parse_memory_file "## Lesson\n### A" = [] := by
  decide

/-- C6 amended: a level-3 heading inside a recognized section produces an
Entry only when at least one line (even a blank one) is buffered for it
before the next heading or end of input; a heading immediately followed by
another level-3 heading or by end of input is dropped entirely, while an
entry whose buffered lines are all blank is emitted with an empty body
(title and body fields always present). -/
theorem entry_emitted_iff_line_buffered (l1 l2 l3 sect t t3 : String)
    (h1 : lineKind l1 = .sectionHead sect)
    (h2 : recognizedMemorySection sect = true)
    (h3 : lineKind l2 = .entryHead t)
    (h4 : lineKind l3 = .entryHead t3) :
    parse_memory_lines [l1, l2] = [] ∧
    parse_memory_lines [l1, l2, ""] = [mkMemoryEntry t sect] ∧
    parse_memory_lines [l1, l2, l3, ""] = [mkMemoryEntry t3 sect] := by
  have hsect : ¬ sect = "" := by
    intro he
    rw [he] at h2
    exact absurd h2 (by decide)
  have htruthy : pyTruthyStr (some sect) = true := by
    simp [pyTruthyStr, hsect]
  have hplain : lineKind "" = LineKind.plain := by decide
  have hjoin : pyStrip (joinNl [""]) = "" := by decide
  refine ⟨?_, ?_, ?_⟩ <;>
    simp [parse_memory_lines, processMemLines, memStep, parseStep, h1, h2, h3, h4,
      htruthy, hplain, hjoin, flushEntry, entriesOf, initPState, mkMemoryEntry]

/-- Witness for `entry_emitted_iff_line_buffered` at concrete lines. -/
theorem entry_emitted_iff_line_buffered_witness :
    (lineKind "## Lessons" = LineKind.sectionHead "Lessons" ∧
     recognizedMemorySection "Lessons" = true ∧
     lineKind "### T1" = LineKind.entryHead "T1" ∧
     lineKind "### T2" = LineKind.entryHead "T2") ∧
    (parse_memory_lines ["## Lessons", "### T1"] = [] ∧
     parse_memory_lines ["## Lessons", "### T1", ""] = [mkMemoryEntry "T1" "Lessons"] ∧
     parse_memory_lines ["## Lessons", "### T1", "### T2", ""]
       = [mkMemoryEntry "T2" "Lessons"]) :=
  ⟨⟨by decide, by decide, by decide, by decide⟩,
   entry_emitted_iff_line_buffered "## Lessons" "### T1" "### T2" "Lessons" "T1" "T2"
     (by decide) (by decide) (by decide) (by decide)⟩

/-! ### Claim C7: a level-2 heading does not always close the open entry -/

/-- C7 counterexample: the claim states that each emitted entry's body
consists only of the lines between its own heading and the next heading
line, that unrecognized-section lines never appear in any body, and that
no entry is emitted more than once. In the code a `## ` line with an empty
buffer neither flushes nor resets `current_entry`, so: the line `secret`
under the unrecognized section `Other` ends up as the body of entry `A`;
and entry `B` is emitted twice (the same dict object, so both emissions
show the final body `b2`, not the body `b1` it was first flushed with). -/
theorem unrecognized_section_lines_leak :
    parse_memory_file "## Lesson Notes\n### A\n## Other\nsecret"
      = [{ title := "A", body := "secret", source := "MEMORY.md", file := "MEMORY.md",
           date := none, section_name := "Lesson Notes" }] ∧
    parse_memory_file "## Key Lessons\n### B\nb1\n## X\nb2\n## Y"
      = [{ title := "B", body := "b2", source := "MEMORY.md", file := "MEMORY.md",
           date := none, section_name := "Key Lessons" },
         { title := "B", body := "b2", source := "MEMORY.md", file := "MEMORY.md",
           date := none, section_name := "Key Lessons" }] := by
  decide

/-- Invariant of the scan loops: `current_entry` always denotes the most
recently allocated store object. -/
def CurInv (st : PState) : Prop :=
  ∀ cid, st.current = some cid → cid + 1 = st.store.length

theorem curInv_init : CurInv initPState := by
  intro cid h
  simp [initPState] at h

theorem flushEntry_store_length (st : PState) :
    (flushEntry st).store.length = st.store.length := by
  cases hc : st.current with
  | none => simp [flushEntry, hc]
  | some cid =>
    by_cases hb : st.buffer.isEmpty
    · simp [flushEntry, hc, hb]
    · simp [flushEntry, hc, hb]

theorem flushEntry_current (st : PState) : (flushEntry st).current = st.current := by
  cases hc : st.current with
  | none => simp [flushEntry, hc]
  | some cid =>
    by_cases hb : st.buffer.isEmpty
    · simp [flushEntry, hc, hb]
    · simp [flushEntry, hc, hb]

theorem flushEntry_take (st : PState) (h : CurInv st) :
    (flushEntry st).store.take (st.store.length - 1)
      = st.store.take (st.store.length - 1) := by
  cases hc : st.current with
  | none => simp [flushEntry, hc]
  | some cid =>
    by_cases hb : st.buffer.isEmpty
    · simp [flushEntry, hc, hb]
    · have hcid : cid + 1 = st.store.length := h cid hc
      have hst : (flushEntry st).store = st.store.set cid
          { (st.store.getD cid default) with body := pyStrip (joinNl st.buffer) } := by
        simp [flushEntry, hc, hb]
      rw [hst, List.set_take]
      apply List.set_eq_of_length_le
      rw [List.length_take]
      omega

theorem parseStep_take (r : String → Bool) (m : String → String → Entry)
    (st : PState) (line : String) (h : CurInv st) :
    (parseStep r m st line).store.take (st.store.length - 1)
        = st.store.take (st.store.length - 1) ∧
    st.store.length ≤ (parseStep r m st line).store.length ∧
    CurInv (parseStep r m st line) := by
  cases hk : lineKind line with
  | sectionHead t =>
    have hstep : parseStep r m st line
        = { flushEntry st with current_section := if r t then some t else none } := by
      simp [parseStep, hk]
    rw [hstep]
    refine ⟨flushEntry_take st h, ?_, ?_⟩
    · exact le_of_eq (flushEntry_store_length st).symm
    · intro cid hcid
      have h2 : (flushEntry st).current = some cid := hcid
      rw [flushEntry_current] at h2
      have h3 := h cid h2
      show cid + 1 = (flushEntry st).store.length
      rw [flushEntry_store_length]
      exact h3
  | entryHead t =>
    by_cases ht : pyTruthyStr st.current_section = true
    · have hstep : parseStep r m st line
          = { flushEntry st with
              store := (flushEntry st).store ++ [m t ((flushEntry st).current_section.getD "")],
              current := some (flushEntry st).store.length } := by
        simp [parseStep, hk, ht]
      rw [hstep]
      refine ⟨?_, ?_, ?_⟩
      · show ((flushEntry st).store ++ _).take (st.store.length - 1) = _
        rw [List.take_append_of_le_length
              (by rw [flushEntry_store_length]; omega),
            flushEntry_take st h]
      · show st.store.length ≤ ((flushEntry st).store ++ _).length
        rw [List.length_append, flushEntry_store_length]
        omega
      · intro cid hcid
        have h2 : some (flushEntry st).store.length = some cid := hcid
        have h3 : (flushEntry st).store.length = cid := Option.some.inj h2
        show cid + 1 = ((flushEntry st).store ++ _).length
        rw [List.length_append, ← h3, List.length_singleton]
    · by_cases hcur : st.current.isSome = true
      · have hstep : parseStep r m st line = { st with buffer := st.buffer ++ [line] } := by
          simp [parseStep, hk, ht, hcur]
        rw [hstep]
        exact ⟨rfl, le_refl _, fun cid hcid => h cid hcid⟩
      · have hstep : parseStep r m st line = st := by
          simp [parseStep, hk, ht, hcur]
        rw [hstep]
        exact ⟨rfl, le_refl _, h⟩
  | plain =>
    by_cases hcur : st.current.isSome = true
    · have hstep : parseStep r m st line = { st with buffer := st.buffer ++ [line] } := by
        simp [parseStep, hk, hcur]
      rw [hstep]
      exact ⟨rfl, le_refl _, fun cid hcid => h cid hcid⟩
    · have hstep : parseStep r m st line = st := by
        simp [parseStep, hk, hcur]
      rw [hstep]
      exact ⟨rfl, le_refl _, h⟩

theorem processFold_take (r : String → Bool) (m : String → String → Entry) :
    ∀ (ls : List String) (st : PState), CurInv st →
      (ls.foldl (parseStep r m) st).store.take (st.store.length - 1)
          = st.store.take (st.store.length - 1) ∧
      st.store.length ≤ (ls.foldl (parseStep r m) st).store.length ∧
      CurInv (ls.foldl (parseStep r m) st) := by
  intro ls
  induction ls with
  | nil => intro st h; exact ⟨rfl, le_refl _, h⟩
  | cons x xs ih =>
    intro st h
    obtain ⟨h1, h2, h3⟩ := parseStep_take r m st x h
    obtain ⟨ih1, ih2, ih3⟩ := ih (parseStep r m st x) h3
    refine ⟨?_, le_trans h2 ih2, ih3⟩
    show (xs.foldl (parseStep r m) (parseStep r m st x)).store.take (st.store.length - 1) = _
    have hle : st.store.length - 1 ≤ (parseStep r m st x).store.length - 1 := by omega
    have hstep : (xs.foldl (parseStep r m) (parseStep r m st x)).store.take (st.store.length - 1)
        = ((xs.foldl (parseStep r m) (parseStep r m st x)).store.take
            ((parseStep r m st x).store.length - 1)).take (st.store.length - 1) := by
      rw [List.take_take, inf_of_le_left hle]
    rw [hstep, ih1, List.take_take, inf_of_le_left hle, h1]

/-- C7 amended: a level-2 heading closes the open entry only when the
entry's body buffer is non-empty; with an empty buffer the entry stays
open, later lines (including lines under an unrecognized section) are
appended to it, and the same entry object can be flushed — hence emitted —
more than once, all emissions showing its final body. What does hold is
that only the most recently opened entry object is ever mutated: however
the scan continues, every store slot except the last one is final. -/
theorem emitted_prefix_immutable (lines more : List String) :
    ((processMemLines (processMemLines initPState lines) more).store).take
        ((processMemLines initPState lines).store.length - 1)
      = ((processMemLines initPState lines).store).take
          ((processMemLines initPState lines).store.length - 1) :=
  (processFold_take recognizedMemorySection mkMemoryEntry more
    (processMemLines initPState lines)
    (processFold_take recognizedMemorySection mkMemoryEntry lines initPState curInv_init).2.2).1

/-! ## The classifier (`EntryClassifier`)

The four label taxonomies are the ordered association lists of the source
(Python 3.7+ dicts iterate in insertion order, so an ordered `List` of
pairs is the faithful image); the first label whose keyword set has a
(substring) match in the scanned text wins. -/

def TYPE_KEYWORDS : List (String × List String) :=
  [("Research", ["research", "benchmark", "analysis", "comparison",
                 "technical deep dive", "performance", "detailed breakdown"]),
   ("Lesson", ["lesson", "learned", "mistake", "error", "issue", "problem",
               "fixed", "resolved", "blocker"]),
   ("Decision", ["decision", "choose", "selected", "opted", "concluded",
                 "determined", "agreed", "strategy"]),
   ("Pattern", ["pattern", "trend", "recurring", "common", "usually",
                "typically", "observation"]),
   ("Tutorial", ["how to", "tutorial", "guide", "step", "instruction",
                 "walkthrough", "setup", "configure"]),
   ("Reference", ["reference", "cheatsheet", "spec", "specification",
                  "documentation", "api", "quick reference"]),
   ("Insight", ["insight", "realized", "noticed", "observed", "thought",
                "idea", "aha", "epiphany"])]

def DOMAIN_KEYWORDS : List (String × List String) :=
  [("AI Models", ["model", "llm", "gpt", "claude", "gemini", "stepflash",
                  "deepseek", "mimo", "devstral", "openrouter", "free tier", "notion"]),
   ("OpenClaw", ["openclaw", "agent", "workflow", "skill", "tool",
                 "automation", "sync", "database"]),
   ("Cost Optimization", ["cost", "price", "$", "budget", "free", "tier",
                          "routing", "saving", "optimization", "value"]),
   ("Trading", ["trading", "invest", "stock", "crypto", "nft", "web3",
                "defi", "bitcoin", "ethereum"]),
   ("Learning", ["learn", "study", "japanese", "language", "course",
                 "tutorial", "duolingo"]),
   ("Process", ["process", "workflow", "method", "procedure", "system",
                "framework"])]

def CERTAINTY_PHRASES : List (String × List String) :=
  [("Verified", ["proven", "confirmed", "tested", "verified", "measured",
                 "data shows", "benchmark result"]),
   ("Likely", ["likely", "probably", "most likely", "seems", "appears",
               "suggest"]),
   ("Speculative", ["maybe", "might", "could", "possibly", "hypothesis",
                    "guess", "uncertain"]),
   ("Opinion", ["i think", "believe", "feel", "in my view", "personally",
                "prefer"])]

def IMPACT_INDICATORS : List (String × List String) :=
  [("High", ["critical", "important", "must", "essential", "key", "major",
             "significant", "game changer"]),
   ("Medium", ["relevant", "useful", "helpful", "worth", "good",
               "beneficial"]),
   ("Low", ["minor", "small", "slight", "marginal", "nice to have"]),
   ("Negligible", ["negligible", "tiny", "minimal", "barely",
                   "insignificant"])]

/-- Python `any(kw in text for kw in keywords)`. -/
def kwMatch (text : String) (keywords : List String) : Bool :=
  keywords.any (fun kw => pyContains text kw)

/-- Source `EntryClassifier.classify_type`. -/
def classify_type (title body : String) : String :=
  let text := pyLower (title ++ " " ++ body)
  (TYPE_KEYWORDS.findSome?
    (fun p => if kwMatch text p.2 then some p.1 else none)).getD "Insight"

/-- Source `EntryClassifier.classify_domain`. -/
def classify_domain (title body : String) : String :=
  let text := pyLower (title ++ " " ++ body)
  (DOMAIN_KEYWORDS.findSome?
    (fun p => if kwMatch text p.2 then some p.1 else none)).getD "General"

/-- Source `EntryClassifier.classify_certainty` (body only). -/
def classify_certainty (body : String) : String :=
  let text := pyLower body
  (CERTAINTY_PHRASES.findSome?
    (fun p => if kwMatch text p.2 then some p.1 else none)).getD "Verified"

/-- Source `EntryClassifier.classify_impact`. -/
def classify_impact (title body : String) : String :=
  let text := pyLower (title ++ " " ++ body)
  (IMPACT_INDICATORS.findSome?
    (fun p => if kwMatch text p.2 then some p.1 else none)).getD "Medium"

/-- Source `EntryClassifier._estimate_confidence` (its `title` parameter is
unused in the source too). -/
def estimate_confidence (title body source : String) : Nat :=
  let score := 7 + (if source == "MEMORY.md" then 1 else 0)
      + (if 500 < body.length then 1 else 0)
      + (if ["data", "benchmark", "measured", "tested"].any
            (fun w => pyContains (pyLower body) w) then 1 else 0)
  min 10 (max 1 score)

/-- The hypothesis of claim C8: no keyword of any of the four taxonomies
matches the text each classifier scans (title and body for type, domain
and impact; body only for certainty, as in the source). -/
def noTaxonomyMatch (title body : String) : Bool :=
  !(TYPE_KEYWORDS.any (fun p => kwMatch (pyLower (title ++ " " ++ body)) p.2)) &&
  !(DOMAIN_KEYWORDS.any (fun p => kwMatch (pyLower (title ++ " " ++ body)) p.2)) &&
  !(CERTAINTY_PHRASES.any (fun p => kwMatch (pyLower body) p.2)) &&
  !(IMPACT_INDICATORS.any (fun p => kwMatch (pyLower (title ++ " " ++ body)) p.2))

/-! ### Claim C8: classification defaults -/

/-- C8 counterexample: the claim states that an entry with no keyword match
in any taxonomy gets confidence score 7 (8 only for Aggregate provenance).
The body `"data"` matches no taxonomy keyword (the taxonomies contain
`"data shows"` and `"database"`, not `"data"`), yet the confidence scorer
adds +1 for the evidentiary keyword `"data"`, giving 8 for a non-Aggregate
entry. -/
theorem evidentiary_keyword_breaks_default_confidence :
    noTaxonomyMatch "" "data" = true ∧
    classify_type "" "data" = "Insight" ∧
    classify_domain "" "data" = "General" ∧
    classify_certainty "data" = "Verified" ∧
    classify_impact "" "data" = "Medium" ∧
    estimate_confidence "" "data" "daily" = 8 := by
  decide

theorem findSome?_none_of_no_match (L : List (String × List String)) (text : String)
    (hL : (L.any (fun p => kwMatch text p.2)) = false) :
    (L.findSome? (fun p => if kwMatch text p.2 then some p.1 else none)) = none := by
  rw [List.findSome?_eq_none_iff]
  intro p hp
  rw [if_neg (List.any_eq_false.mp hL p hp)]

/-- C8 amended: for every entry whose scanned text matches no keyword of
any taxonomy, and whose body additionally is at most 500 characters long
and contains no evidentiary keyword ("data", "benchmark", "measured",
"tested"), the classifier produces Insight, General, Verified, Medium and
confidence score 7, or 8 if the provenance is Aggregate (source
`MEMORY.md`). Without the two extra body conditions the +1 size bonus or
+1 evidentiary bonus raises the score above the claimed value. -/
theorem classifier_defaults (title body source : String)
    (h1 : noTaxonomyMatch title body = true)
    (h2 : body.length ≤ 500)
    (h3 : (["data", "benchmark", "measured", "tested"].any
            (fun w => pyContains (pyLower body) w)) = false) :
    classify_type title body = "Insight" ∧
    classify_domain title body = "General" ∧
    classify_certainty body = "Verified" ∧
    classify_impact title body = "Medium" ∧
    estimate_confidence title body source
      = (if source == "MEMORY.md" then 8 else 7) := by
  rw [noTaxonomyMatch] at h1
  simp only [Bool.and_eq_true, Bool.not_eq_true'] at h1
  obtain ⟨⟨⟨hT, hD⟩, hC⟩, hI⟩ := h1
  have hlen : (if 500 < body.length then (1 : Nat) else 0) = 0 := by
    rw [if_neg]; omega
  have hev : (if (["data", "benchmark", "measured", "tested"].any
        (fun w => pyContains (pyLower body) w)) = true then (1 : Nat) else 0) = 0 := by
    rw [if_neg]
    simp [h3]
  refine ⟨?_, ?_, ?_, ?_, ?_⟩
  · simp only [classify_type, findSome?_none_of_no_match _ _ hT, Option.getD_none]
  · simp only [classify_domain, findSome?_none_of_no_match _ _ hD, Option.getD_none]
  · simp only [classify_certainty, findSome?_none_of_no_match _ _ hC, Option.getD_none]
  · simp only [classify_impact, findSome?_none_of_no_match _ _ hI, Option.getD_none]
  · by_cases hsrc : (source == "MEMORY.md") = true
    · simp only [estimate_confidence, hsrc, if_true, hlen, hev]
      norm_num
    · have hsrc2 : (source == "MEMORY.md") = false := by
        cases hq : (source == "MEMORY.md")
        · rfl
        · exact absurd hq hsrc
      simp only [estimate_confidence, hsrc2, Bool.false_eq_true, if_false, hlen, hev]
      norm_num

/-- Witness for `classifier_defaults` at a concrete keyword-free entry with
Aggregate provenance. -/
theorem classifier_defaults_witness :
    (noTaxonomyMatch "" "xq" = true ∧ ("xq" : String).length ≤ 500 ∧
     (["data", "benchmark", "measured", "tested"].any
        (fun w => pyContains (pyLower "xq") w)) = false) ∧
    (classify_type "" "xq" = "Insight" ∧
     classify_domain "" "xq" = "General" ∧
     classify_certainty "xq" = "Verified" ∧
     classify_impact "" "xq" = "Medium" ∧
     estimate_confidence "" "xq" "MEMORY.md"
       = (if ("MEMORY.md" : String) == "MEMORY.md" then 8 else 7)) :=
  ⟨⟨by decide, by decide, by decide⟩,
   classifier_defaults "" "xq" "MEMORY.md" (by decide) (by decide) (by decide)⟩

/-! ## Truncation (`SyncOrchestrator._truncate_text`) and emitted-length bounds -/

/-- The sentence separators tried in order by `_truncate_text`. -/
def truncSeps : List String := ["\n\n", ". ", "! ", "? ", "; "]

/-- Scanner for Python `text.rfind(sep, 0, endPos)`: remembers the last
position where `sep` starts (the accumulator holds the best match so
far). -/
def pyRfindGo (sep : List Char) : List Char → Nat → Option Nat → Option Nat
  | [], _, acc => acc
  | c :: rest, i, acc =>
    pyRfindGo sep rest (i+1) (if sep.isPrefixOf (c :: rest) then some i else acc)

/-- Python `text.rfind(sep, 0, endPos)`, with `none` for the -1 "not found"
result; the match must lie entirely inside `text[0:endPos]`. -/
def pyRfind (text sep : String) (endPos : Nat) : Option Nat :=
  pyRfindGo sep.data (text.data.take endPos) 0 none

/-- Source `SyncOrchestrator._truncate_text`. The Python guard
`idx > max_len * 0.5` compares an integer against an exactly-representable
float, which for the integer `idx` is equivalent to `2 * idx > max_len`. -/
def truncate_text (text : String) (max_len : Nat) : String :=
  if text.length ≤ max_len then text
  else
    match truncSeps.findSome? (fun sep =>
      match pyRfind text sep max_len with
      | some idx =>
        if max_len < 2 * idx then some (pyStrip (pyTake text (idx + 1))) else none
      | none => none) with
    | some result => result
    | none => pyStrip (pyTake text (max_len - 3)) ++ "..."

/-- Length of the text payload of a block. -/
def blockTextLength : Block → Nat
  | .heading _ t => t.length
  | .paragraph t => t.length
  | .bulleted_list_item t => t.length
  | .quote t => t.length
  | .code t _ => t.length
  | .divider => 0

theorem pyTake_length_le (s : String) (n : Nat) : (pyTake s n).length ≤ n := by
  show (s.data.take n).length ≤ n
  rw [List.length_take]
  exact min_le_left _ _

theorem dropWhile_length_le {α : Type} (p : α → Bool) (l : List α) :
    (l.dropWhile p).length ≤ l.length := by
  induction l with
  | nil => exact le_refl _
  | cons a t ih =>
    rw [List.dropWhile_cons]
    split
    · exact le_trans ih (by simp)
    · exact le_refl _

theorem pyStrip_length_le (s : String) : (pyStrip s).length ≤ s.length := by
  show (((s.data.dropWhile pyWs).reverse.dropWhile pyWs).reverse).length ≤ s.data.length
  rw [List.length_reverse]
  calc ((s.data.dropWhile pyWs).reverse.dropWhile pyWs).length
      ≤ (s.data.dropWhile pyWs).reverse.length := dropWhile_length_le _ _
    _ = (s.data.dropWhile pyWs).length := List.length_reverse _
    _ ≤ s.data.length := dropWhile_length_le _ _

theorem str_length_append (a b : String) : (a ++ b).length = a.length + b.length := by
  show (a.data ++ b.data).length = a.data.length + b.data.length
  exact List.length_append a.data b.data

theorem pyRfindGo_bound (sep : List Char) :
    ∀ (l : List Char) (i : Nat) (acc : Option Nat) (j : Nat),
      (∀ j0, acc = some j0 → j0 + sep.length ≤ i + l.length) →
      pyRfindGo sep l i acc = some j → j + sep.length ≤ i + l.length := by
  intro l
  induction l with
  | nil =>
    intro i acc j hacc h
    simp only [pyRfindGo] at h
    simpa using hacc j h
  | cons c rest ih =>
    intro i acc j hacc h
    simp only [pyRfindGo] at h
    have hnext : ∀ j0, (if sep.isPrefixOf (c :: rest) then some i else acc) = some j0 →
        j0 + sep.length ≤ (i+1) + rest.length := by
      intro j0 hj0
      split at hj0
      case isTrue hpre =>
        obtain rfl := Option.some.inj hj0
        have hl : sep.length ≤ (c :: rest).length :=
          (List.isPrefixOf_iff_prefix.mp hpre).length_le
        rw [List.length_cons] at hl
        omega
      case isFalse =>
        have := hacc j0 hj0
        rw [List.length_cons] at this
        omega
    have := ih (i+1) _ j hnext h
    rw [List.length_cons]
    omega

theorem pyRfind_bound (text sep : String) (endPos : Nat) (j : Nat)
    (h : pyRfind text sep endPos = some j) :
    j + sep.length ≤ endPos ∧ j + sep.length ≤ text.length := by
  have hb := pyRfindGo_bound sep.data (text.data.take endPos) 0 none j
    (by intro j0 hj0; cases hj0) h
  rw [List.length_take] at hb
  constructor
  · exact le_trans hb (by simpa using min_le_left endPos text.data.length)
  · exact le_trans hb (by simpa using min_le_right endPos text.data.length)

theorem create_heading_bound (lvl : Nat) (t : String) :
    blockTextLength (create_heading lvl t) ≤ 2000 := pyTake_length_le t 2000

theorem create_paragraph_bound (t : String) :
    blockTextLength (create_paragraph t) ≤ 2000 := pyTake_length_le t 2000

theorem create_list_item_bound (t : String) :
    blockTextLength (create_list_item t) ≤ 2000 := pyTake_length_le t 2000

theorem create_quote_bound (t : String) :
    blockTextLength (create_quote t) ≤ 2000 := pyTake_length_le t 2000

theorem create_code_bound (c : String) (lang : Option String) :
    blockTextLength (create_code c lang) ≤ 2000 := pyTake_length_le c 2000

theorem acc_append_bound {acc bs : List Block}
    (hacc : ∀ b ∈ acc, blockTextLength b ≤ 2000)
    (hbs : ∀ b ∈ bs, blockTextLength b ≤ 2000) :
    ∀ b ∈ acc ++ bs, blockTextLength b ≤ 2000 := by
  intro b hb
  rcases List.mem_append.mp hb with hm | hm
  · exact hacc b hm
  · exact hbs b hm

theorem singleton_bound {x : Block} (hx : blockTextLength x ≤ 2000) :
    ∀ b ∈ [x], blockTextLength b ≤ 2000 := by
  intro b hb
  rw [List.mem_singleton.mp hb]
  exact hx

theorem parse_list_go_bound (lines : List String) (lt : String) :
    ∀ fuel i, ∀ b ∈ parse_list_go lines lt i fuel, blockTextLength b ≤ 2000 := by
  intro fuel
  induction fuel with
  | zero =>
    intro i b hb
    simp [parse_list_go] at hb
  | succ n ih =>
    intro i b hb
    simp only [parse_list_go] at hb
    split at hb
    · split at hb
      · exact ih _ b hb
      · split at hb
        · rcases List.mem_cons.mp hb with rfl | hm
          · exact create_list_item_bound _
          · exact ih _ b hm
        · split at hb
          · split at hb
            · rcases List.mem_cons.mp hb with rfl | hm
              · exact create_list_item_bound _
              · exact ih _ b hm
            · cases hb
          · cases hb
    · cases hb

theorem parse_list_bound (lines : List String) (start : Nat) (lt : String) :
    ∀ b ∈ parse_list lines start lt, blockTextLength b ≤ 2000 :=
  parse_list_go_bound lines lt (lines.length - start) start

theorem create_divider_bound : blockTextLength create_divider ≤ 2000 :=
  Nat.zero_le 2000

/-- One step of the `convert` loop: either the scan is past the last line
and the loop returns the accumulated blocks, or the loop recurses with
some (possibly empty) batch of new blocks appended, every one of them
within the 2000-character bound. -/
theorem convertLoop_succ_eq (lines : List String) (i n : Nat) (acc : List Block) :
    convertLoop lines i (n+1) acc = some acc ∨
    (∃ i2 bs, convertLoop lines i (n+1) acc = convertLoop lines i2 n (acc ++ bs) ∧
       ∀ b ∈ bs, blockTextLength b ≤ 2000) := by
  by_cases hi : i < lines.length
  · right
    by_cases h1 : pyStrip (pyRstrip lines[i]) = ""
    · refine ⟨i+1, [], ?_, by intro b hb; cases hb⟩
      rw [List.append_nil]
      simp only [convertLoop]
      rw [dif_pos hi, if_pos h1]
    · by_cases h2 : pyStartsWith (pyRstrip lines[i]) "# " = true
      · refine ⟨i+1, [create_heading 1 (pyDrop (pyRstrip lines[i]) 2)], ?_,
          singleton_bound (create_heading_bound _ _)⟩
        simp only [convertLoop]
        rw [dif_pos hi, if_neg h1, if_pos h2]
      · by_cases h3 : pyStartsWith (pyRstrip lines[i]) "## " = true
        · refine ⟨i+1, [create_heading 2 (pyDrop (pyRstrip lines[i]) 3)], ?_,
            singleton_bound (create_heading_bound _ _)⟩
          simp only [convertLoop]
          rw [dif_pos hi, if_neg h1, if_neg h2, if_pos h3]
        · by_cases h4 : pyStartsWith (pyRstrip lines[i]) "### " = true
          · refine ⟨i+1, [create_heading 3 (pyDrop (pyRstrip lines[i]) 4)], ?_,
              singleton_bound (create_heading_bound _ _)⟩
            simp only [convertLoop]
            rw [dif_pos hi, if_neg h1, if_neg h2, if_neg h3, if_pos h4]
          · by_cases h5 : (pyStartsWith (pyRstrip lines[i]) "- "
                || pyStartsWith (pyRstrip lines[i]) "* ") = true
            · refine ⟨skip_list lines i "-", parse_list lines i "-", ?_,
                parse_list_bound lines i "-"⟩
              simp only [convertLoop]
              rw [dif_pos hi, if_neg h1, if_neg h2, if_neg h3, if_neg h4, if_pos h5]
            · by_cases h6 : (numberedPrefixLen (pyRstrip lines[i])).isSome = true
              · refine ⟨skip_list lines i "numbered", parse_list lines i "numbered", ?_,
                  parse_list_bound lines i "numbered"⟩
                simp only [convertLoop]
                rw [dif_pos hi, if_neg h1, if_neg h2, if_neg h3, if_neg h4, if_neg h5,
                    if_pos h6]
              · by_cases h7 : pyStartsWith (pyRstrip lines[i]) "> " = true
                · refine ⟨i+1, [create_quote (pyDrop (pyRstrip lines[i]) 2)], ?_,
                    singleton_bound (create_quote_bound _)⟩
                  simp only [convertLoop]
                  rw [dif_pos hi, if_neg h1, if_neg h2, if_neg h3, if_neg h4, if_neg h5,
                      if_neg h6, if_pos h7]
                · by_cases h8 : pyStartsWith (pyRstrip lines[i]) "```" = true
                  · refine ⟨(parse_code_block lines i).2,
                      [create_code (joinNl (parse_code_block lines i).1)
                        (if (if 3 < (lines[i] : String).length
                              then pyStrip (pyDrop lines[i] 3) else "") = ""
                         then none
                         else some (if 3 < (lines[i] : String).length
                              then pyStrip (pyDrop lines[i] 3) else ""))], ?_,
                      singleton_bound (create_code_bound _ _)⟩
                    simp only [convertLoop]
                    rw [dif_pos hi, if_neg h1, if_neg h2, if_neg h3, if_neg h4, if_neg h5,
                        if_neg h6, if_neg h7, if_pos h8]
                  · by_cases h9 : (decide (pyStrip (pyRstrip lines[i]) = "---")
                        || decide (pyStrip (pyRstrip lines[i]) = "***")
                        || decide (pyStrip (pyRstrip lines[i]) = "___")) = true
                    · refine ⟨i+1, [create_divider], ?_, singleton_bound create_divider_bound⟩
                      simp only [convertLoop]
                      rw [dif_pos hi, if_neg h1, if_neg h2, if_neg h3, if_neg h4, if_neg h5,
                          if_neg h6, if_neg h7, if_neg h8, if_pos h9]
                    · by_cases h10 : (pyContains (pyRstrip lines[i]) "|"
                          && decide (3 ≤ pyCountChar (pyRstrip lines[i]) '|')) = true
                      · refine ⟨(table_go lines (i+1) (lines.length - (i+1))
                            (pyRstrip lines[i])).2,
                          [create_code (table_go lines (i+1) (lines.length - (i+1))
                            (pyRstrip lines[i])).1 (some "markdown-table")], ?_,
                          singleton_bound (create_code_bound _ _)⟩
                        simp only [convertLoop]
                        rw [dif_pos hi, if_neg h1, if_neg h2, if_neg h3, if_neg h4, if_neg h5,
                            if_neg h6, if_neg h7, if_neg h8, if_neg h9, if_pos h10]
                      · refine ⟨i+1, [create_paragraph (pyRstrip lines[i])], ?_,
                          singleton_bound (create_paragraph_bound _)⟩
                        simp only [convertLoop]
                        rw [dif_pos hi, if_neg h1, if_neg h2, if_neg h3, if_neg h4, if_neg h5,
                            if_neg h6, if_neg h7, if_neg h8, if_neg h9, if_neg h10]
  · left
    simp only [convertLoop]
    rw [dif_neg hi]

theorem convertLoop_bound (lines : List String) :
    ∀ fuel i (acc blocks : List Block),
      (∀ b ∈ acc, blockTextLength b ≤ 2000) →
      convertLoop lines i fuel acc = some blocks →
      ∀ b ∈ blocks, blockTextLength b ≤ 2000 := by
  intro fuel
  induction fuel with
  | zero =>
    intro i acc blocks hacc h
    rw [show convertLoop lines i 0 acc = none from rfl] at h
    cases h
  | succ n ih =>
    intro i acc blocks hacc h
    rcases convertLoop_succ_eq lines i n acc with heq | ⟨i2, bs, heq, hbs⟩
    · rw [heq] at h
      obtain rfl := Option.some.inj h
      exact hacc
    · rw [heq] at h
      exact ih i2 (acc ++ bs) blocks (acc_append_bound hacc hbs) h

/-! ### Claim C9: length bounds and the 50% truncation floor -/

/-- A text whose prefix is mostly whitespace: 1050 spaces, then `"x. "`,
then 1001 copies of `y` (2054 characters in total). -/
def wsHeavyText : String :=
  String.mk (List.replicate 1050 ' ' ++ ('x' :: '.' :: ' ' :: List.replicate 1001 'y'))

theorem pyRfindGo_cons_of_no (sep : List Char) (c : Char) (l : List Char) (i : Nat)
    (acc : Option Nat) (h : sep.isPrefixOf (c :: l) = false) :
    pyRfindGo sep (c :: l) i acc = pyRfindGo sep l (i+1) acc := by
  simp only [pyRfindGo, h, Bool.false_eq_true, if_false]

theorem pyRfindGo_cons_of_yes (sep : List Char) (c : Char) (l : List Char) (i : Nat)
    (acc : Option Nat) (h : sep.isPrefixOf (c :: l) = true) :
    pyRfindGo sep (c :: l) i acc = pyRfindGo sep l (i+1) (some i) := by
  simp only [pyRfindGo, h, if_true]

theorem pyRfindGo_replicate (sep : List Char) (c : Char)
    (h : ∀ l, sep.isPrefixOf (c :: l) = false) :
    ∀ (n : Nat) (l : List Char) (i : Nat) (acc : Option Nat),
      pyRfindGo sep (List.replicate n c ++ l) i acc = pyRfindGo sep l (i + n) acc := by
  intro n
  induction n with
  | zero => intro l i acc; rfl
  | succ m ih =>
    intro l i acc
    rw [List.replicate_succ, List.cons_append,
        pyRfindGo_cons_of_no sep c _ i acc (h _), ih l (i+1) acc]
    have harith : i + 1 + m = i + (m + 1) := by omega
    rw [harith]

/-- C9 counterexample: the claim states that the sentence-boundary-aware
truncation never cuts the text below 50% of the maximum length (1000 for
the 2000 maximum) unless no boundary exists. On `wsHeavyText` the boundary
`". "` is found at index 1051 (past 50%), the code cuts there and then
strips the 1050 leading spaces, leaving the 2-character string `"x."` —
far below 50% of the maximum length although a boundary exists. -/
theorem strip_cuts_below_half :
    2000 < wsHeavyText.length ∧
    pyRfind wsHeavyText ". " 2000 = some 1051 ∧
    truncate_text wsHeavyText 2000 = "x." ∧
    (truncate_text wsHeavyText 2000).length < 1000 := by
  have hdata : wsHeavyText.data
      = List.replicate 1050 ' ' ++ ('x' :: '.' :: ' ' :: List.replicate 1001 'y') := rfl
  have hlen : wsHeavyText.length = 2054 := by
    show wsHeavyText.data.length = 2054
    rw [hdata, List.length_append, List.length_replicate, List.length_cons,
        List.length_cons, List.length_cons, List.length_replicate]
  have htake : wsHeavyText.data.take 2000
      = List.replicate 1050 ' ' ++ ('x' :: '.' :: ' ' :: List.replicate 947 'y') := by
    rw [hdata, List.take_append_eq_append_take, List.take_replicate, List.length_replicate,
        show (2000 : Nat) ⊓ 1050 = 1050 by decide,
        show (2000 : Nat) - 1050 = 950 by decide,
        show List.take 950 ('x' :: '.' :: ' ' :: List.replicate 1001 'y')
          = 'x' :: '.' :: ' ' :: List.take 947 (List.replicate 1001 'y') from rfl,
        List.take_replicate,
        show (947 : Nat) ⊓ 1001 = 947 by decide]
  have hnoY : ∀ l, (". ".data).isPrefixOf ('y' :: l) = false := fun l => rfl
  have hrfind2 : pyRfind wsHeavyText ". " 2000 = some 1051 := by
    have s1 : (". ".data).isPrefixOf ('x' :: '.' :: ' ' :: List.replicate 947 'y') = false := rfl
    have s2 : (". ".data).isPrefixOf ('.' :: ' ' :: List.replicate 947 'y') = true := rfl
    have s3 : (". ".data).isPrefixOf (' ' :: List.replicate 947 'y') = false := rfl
    show pyRfindGo (". ".data) (wsHeavyText.data.take 2000) 0 none = some 1051
    rw [htake, pyRfindGo_replicate (". ".data) ' ' (fun l => rfl) 1050,
        pyRfindGo_cons_of_no _ _ _ _ _ s1,
        pyRfindGo_cons_of_yes _ _ _ _ _ s2,
        pyRfindGo_cons_of_no _ _ _ _ _ s3,
        show List.replicate 947 'y' = List.replicate 947 'y' ++ [] from (List.append_nil _).symm,
        pyRfindGo_replicate (". ".data) 'y' hnoY 947]
    rfl
  have hrfind1 : pyRfind wsHeavyText "\n\n" 2000 = none := by
    have s1 : ("\n\n".data).isPrefixOf ('x' :: '.' :: ' ' :: List.replicate 947 'y') = false := rfl
    have s2 : ("\n\n".data).isPrefixOf ('.' :: ' ' :: List.replicate 947 'y') = false := rfl
    have s3 : ("\n\n".data).isPrefixOf (' ' :: List.replicate 947 'y') = false := rfl
    show pyRfindGo ("\n\n".data) (wsHeavyText.data.take 2000) 0 none = none
    rw [htake, pyRfindGo_replicate ("\n\n".data) ' ' (fun l => rfl) 1050,
        pyRfindGo_cons_of_no _ _ _ _ _ s1,
        pyRfindGo_cons_of_no _ _ _ _ _ s2,
        pyRfindGo_cons_of_no _ _ _ _ _ s3,
        show List.replicate 947 'y' = List.replicate 947 'y' ++ [] from (List.append_nil _).symm,
        pyRfindGo_replicate ("\n\n".data) 'y' (fun l => rfl) 947]
    rfl
  have hle : ¬ wsHeavyText.length ≤ 2000 := by rw [hlen]; omega
  have hstrip : pyStrip (pyTake wsHeavyText 1052) = "x." := by
    have ht2 : wsHeavyText.data.take 1052 = List.replicate 1050 ' ' ++ ['x', '.'] := by
      rw [hdata, List.take_append_eq_append_take, List.take_replicate, List.length_replicate,
          show (1052 : Nat) ⊓ 1050 = 1050 by decide,
          show (1052 : Nat) - 1050 = 2 by decide]
      rfl
    show pyStrip (String.mk (wsHeavyText.data.take 1052)) = "x."
    rw [ht2]
    show String.mk ((((List.replicate 1050 ' '
        ++ ['x', '.']).dropWhile pyWs).reverse.dropWhile pyWs).reverse) = "x."
    rw [List.dropWhile_append]
    have hws : (List.replicate 1050 ' ').dropWhile pyWs = [] := by
      rw [List.dropWhile_eq_nil_iff]
      intro x hx
      rw [List.eq_of_mem_replicate hx]
      rfl
    rw [hws]
    rfl
  have hfind : truncSeps.findSome? (fun sep =>
      match pyRfind wsHeavyText sep 2000 with
      | some idx =>
        if 2000 < 2 * idx then some (pyStrip (pyTake wsHeavyText (idx + 1))) else none
      | none => none) = some "x." := by
    rw [show truncSeps = "\n\n" :: ". " :: ["! ", "? ", "; "] from rfl,
        List.findSome?_cons, hrfind1]
    dsimp only
    rw [List.findSome?_cons, hrfind2]
    dsimp only
    rw [if_pos (by omega : (2000 : Nat) < 2 * 1051),
        show (1051 + 1 : Nat) = 1052 from rfl, hstrip]
  have htr : truncate_text wsHeavyText 2000 = "x." := by
    unfold truncate_text
    rw [if_neg hle, hfind]
  exact ⟨by rw [hlen]; omega, hrfind2, htr, by rw [htr]; decide⟩

/-- C9 amended: every emitted text field respects its declared maximum
length (100 for the title property, 2000 for the body property and for
every block text payload), and the truncation *cut position* is always
past 50% of the maximum (the sentence cut by the explicit guard, the hard
cut at `max_len - 3` because `max_len ≥ 7`); the final string can still be
shorter than 50% of the maximum only because leading/trailing whitespace
is stripped after the cut. -/
theorem truncation_bounds (text title : String) (max_len : Nat) (h : 7 ≤ max_len) :
    (truncate_text text max_len).length ≤ max_len ∧
    (pyTake title MAX_TITLE_LENGTH).length ≤ MAX_TITLE_LENGTH ∧
    (∃ cut, max_len < 2 * cut ∧
       (truncate_text text max_len = text ∨
        truncate_text text max_len = pyStrip (pyTake text cut) ∨
        truncate_text text max_len = pyStrip (pyTake text (max_len - 3)) ++ "...")) ∧
    (∀ fuel blocks, convertLoop (linesOf text) 0 fuel [] = some blocks →
       ∀ b ∈ blocks, blockTextLength b ≤ MAX_BODY_LENGTH) := by
  have hmain : (truncate_text text max_len).length ≤ max_len ∧
      (∃ cut, max_len < 2 * cut ∧
        (truncate_text text max_len = text ∨
         truncate_text text max_len = pyStrip (pyTake text cut) ∨
         truncate_text text max_len = pyStrip (pyTake text (max_len - 3)) ++ "...")) := by
    by_cases hlen : text.length ≤ max_len
    · have htr : truncate_text text max_len = text := by
        unfold truncate_text
        rw [if_pos hlen]
      rw [htr]
      exact ⟨hlen, max_len, by omega, Or.inl rfl⟩
    · cases hfind : truncSeps.findSome? (fun sep =>
          match pyRfind text sep max_len with
          | some idx =>
            if max_len < 2 * idx then some (pyStrip (pyTake text (idx + 1))) else none
          | none => none) with
      | some r =>
        obtain ⟨l1, sep, l2, hsplit, hfa, _⟩ := List.findSome?_eq_some_iff.mp hfind
        cases hrf : pyRfind text sep max_len with
        | none => rw [hrf] at hfa; cases hfa
        | some idx =>
          rw [hrf] at hfa
          dsimp only at hfa
          split at hfa
          next hidx =>
            obtain rfl := Option.some.inj hfa
            have hm : sep ∈ truncSeps := by
              rw [hsplit]
              exact List.mem_append.mpr (Or.inr (List.mem_cons_self _ _))
            have hsep2 : sep.length = 2 := by
              simp [truncSeps] at hm
              rcases hm with rfl | rfl | rfl | rfl | rfl <;> rfl
            have hbnd := (pyRfind_bound text sep max_len idx hrf).1
            rw [hsep2] at hbnd
            have htr : truncate_text text max_len = pyStrip (pyTake text (idx + 1)) := by
              unfold truncate_text
              rw [if_neg hlen, hfind]
            refine ⟨?_, idx + 1, by omega, Or.inr (Or.inl htr)⟩
            rw [htr]
            calc (pyStrip (pyTake text (idx + 1))).length
                ≤ (pyTake text (idx + 1)).length := pyStrip_length_le _
              _ ≤ idx + 1 := pyTake_length_le _ _
              _ ≤ max_len := by omega
          next => cases hfa
      | none =>
        have htr : truncate_text text max_len
            = pyStrip (pyTake text (max_len - 3)) ++ "..." := by
          unfold truncate_text
          rw [if_neg hlen, hfind]
        refine ⟨?_, max_len - 3, by omega, Or.inr (Or.inr htr)⟩
        rw [htr, str_length_append]
        have h1 : (pyStrip (pyTake text (max_len - 3))).length ≤ max_len - 3 :=
          le_trans (pyStrip_length_le _) (pyTake_length_le _ _)
        have h3 : ("..." : String).length = 3 := rfl
        omega
  refine ⟨hmain.1, pyTake_length_le _ _, hmain.2, ?_⟩
  intro fuel blocks hconv
  exact convertLoop_bound (linesOf text) fuel 0 [] blocks (by intro b hb; cases hb) hconv

/-- Witness for `truncation_bounds` at a concrete over-long text. -/
theorem truncation_bounds_witness :
    7 ≤ 7 ∧
    ((truncate_text "abcdefgh" 7).length ≤ 7 ∧
     (pyTake "t" MAX_TITLE_LENGTH).length ≤ MAX_TITLE_LENGTH ∧
     (∃ cut, 7 < 2 * cut ∧
        (truncate_text "abcdefgh" 7 = "abcdefgh" ∨
         truncate_text "abcdefgh" 7 = pyStrip (pyTake "abcdefgh" cut) ∨
         truncate_text "abcdefgh" 7 = pyStrip (pyTake "abcdefgh" (7 - 3)) ++ "...")) ∧
     (∀ fuel blocks, convertLoop (linesOf "abcdefgh") 0 fuel [] = some blocks →
        ∀ b ∈ blocks, blockTextLength b ≤ MAX_BODY_LENGTH)) :=
  ⟨by decide, truncation_bounds "abcdefgh" "t" 7 (by decide)⟩

/-! ## The orchestrator (`SyncOrchestrator.process_entry` / `sync`)

Modelled from the spec: the remote store is the opaque upsert-by-key
service of the spec (create adds a page, update replaces its properties,
lookup-for-update is a "contains" match on the `Source File` property and
returns the first result); transport always succeeds and `dry_run` is
false. A page is reduced to the id and the one property the lookup reads
(`Source File`, always set to the processed entry's file identifier). -/

structure Page where
  pid : Nat
  sourceFile : String
  deriving DecidableEq

structure NStore where
  pages : List Page
  nextId : Nat
  deriving DecidableEq

def emptyStore : NStore := ⟨[], 0⟩

/-- Modelled from the spec: source `NotionClient.query_by_source_file` —
first page whose `Source File` property contains the query string. -/
def query_by_source_file (st : NStore) (source_file : String) : Option Nat :=
  (st.pages.find? (fun p => pyContains p.sourceFile source_file)).map Page.pid

/-- Modelled from the spec: source `NotionClient.create_page` (always
succeeds; returns the fresh page id). -/
def create_page (st : NStore) (source_file : String) : NStore × Nat :=
  ({ pages := st.pages ++ [{ pid := st.nextId, sourceFile := source_file }],
     nextId := st.nextId + 1 }, st.nextId)

/-- Modelled from the spec: source `NotionClient.update_page` — replaces
the page's properties, including `Source File`. -/
def update_page (st : NStore) (pid : Nat) (source_file : String) : NStore :=
  { st with
    pages := st.pages.map
      (fun p => if p.pid = pid then { p with sourceFile := source_file } else p) }

structure SyncStats where
  created : Nat
  updated : Nat
  failed : Nat
  deriving DecidableEq

/-- Source `SyncOrchestrator.process_entry` with `dry_run = False` and a
remote store whose transport always succeeds: classify, look up by the
entry's file, build the properties, and when the body is non-empty and
longer than 50 characters compute the `Body` property
(`_truncate_text(body_content, MAX_BODY_LENGTH)`) and — still before the
update/create branch, hence also on the update path — the page content:
`children = self.converter.convert(body_content)`. If that conversion loop
never terminates (`convert` = `none`, the `'* '` line bug of C1) the call
never returns and neither an update nor a create happens, modelled as
result `none`. On completion: update the found page's properties, else
create a page. Classification and the properties other than `Source File`
(in particular the truncated `Body`) always terminate and do not affect
the lookup or the tallies, so they are not carried in the store model. -/
def process_entry (st : NStore) (e : Entry) : Option (NStore × Option Nat) :=
  match (if e.body ≠ "" ∧ 50 < e.body.length
         then (convert e.body).map some else some none) with
  | none => none
  | some _children =>
    match query_by_source_file st e.file with
    | some pid => some (update_page st pid e.file, some pid)
    | none => some ((create_page st e.file).1, some (create_page st e.file).2)

/-- Proof device (not an embedding): what `process_entry` produces in the
case where it completes, i.e. where the body conversion terminates;
`process_entry_eq` below proves the agreement. -/
def processT (st : NStore) (e : Entry) : NStore × Option Nat :=
  match query_by_source_file st e.file with
  | some pid => (update_page st pid e.file, some pid)
  | none => ((create_page st e.file).1, some (create_page st e.file).2)

/-- One iteration of the `sync` batch loop, including the source's tally
line, which re-queries the store *after* processing the entry
(`stats['created' if not self.notion.query_by_source_file(...) else
'updated'] += 1`). A `process_entry` call that never returns
(non-terminating body conversion) propagates as `none`: the batch loop
hangs inside it (no exception is raised, so the `except` arm that would
count a failure is never reached). -/
def syncStep (acc : NStore × SyncStats) (e : Entry) : Option (NStore × SyncStats) :=
  match process_entry acc.1 e with
  | none => none
  | some r =>
    match r.2 with
    | some _ =>
      if (query_by_source_file r.1 e.file).isSome
      then some (r.1, { acc.2 with updated := acc.2.updated + 1 })
      else some (r.1, { acc.2 with created := acc.2.created + 1 })
    | none => some (r.1, { acc.2 with failed := acc.2.failed + 1 })

/-- Proof device (not an embedding): one loop iteration in the case where
the entry's body conversion terminates — the only case in which `syncStep`
completes; `syncStep_eq_some` below proves the agreement. -/
def syncStepT (acc : NStore × SyncStats) (e : Entry) : NStore × SyncStats :=
  let r := processT acc.1 e
  match r.2 with
  | some _ =>
    if (query_by_source_file r.1 e.file).isSome
    then (r.1, { acc.2 with updated := acc.2.updated + 1 })
    else (r.1, { acc.2 with created := acc.2.created + 1 })
  | none => (r.1, { acc.2 with failed := acc.2.failed + 1 })

/-- Source `SyncOrchestrator.sync` over already-extracted entries (no
`limit`, `dry_run = False`); `none` when the run hangs, i.e. when some
entry's body conversion never terminates. -/
def sync (st : NStore) (entries : List Entry) : Option (NStore × SyncStats) :=
  entries.foldlM syncStep (st, ⟨0, 0, 0⟩)

/-- The body-conversion call made by `process_entry` terminates for this
entry (vacuously so when the body is too short for the call to be made). -/
def ConvOK (e : Entry) : Prop :=
  e.body ≠ "" ∧ 50 < e.body.length → (convert e.body).isSome = true

/-- Every entry's body conversion terminates: the hypothesis under which a
batch run completes. -/
def bodiesConvertible (entries : List Entry) : Bool :=
  entries.all (fun e =>
    if e.body ≠ "" ∧ 50 < e.body.length then (convert e.body).isSome else true)

/-! ### Claim C10: resync behaviour -/

def entryA : Entry :=
  { title := "T1", body := "", source := "MEMORY.md", file := "MEMORY.md",
    date := none, section_name := "S" }

def entryB : Entry :=
  { title := "T2", body := "", source := "MEMORY.md", file := "MEMORY.md",
    date := none, section_name := "S" }

def entryC : Entry :=
  { title := "T3", body := "", source := "daily", file := "2024-a.md",
    date := some "2024-a", section_name := "S" }

def entryD : Entry :=
  { title := "T4", body := "", source := "daily", file := "a.md",
    date := some "a", section_name := "S" }

/-- C10 counterexample: the claim states the second run produces zero
creates and N updates for the N entries created on the first run. The
lookup is per *file*, not per entry: two entries sharing `MEMORY.md`
create only one page on the first run (N = 1) while the second run
performs 2 updates; and with substring-entangled file names
(`a.md` / `2024-a.md`) the update path overwrites the page's
`Source File`, so the second run even creates a new page (the store grows
from one page to two). All four bodies are empty, so every run completes
(`some`). -/
theorem second_run_not_n_updates :
    sync emptyStore [entryA, entryB]
      = some (⟨[⟨0, "MEMORY.md"⟩], 1⟩, ⟨0, 2, 0⟩) ∧
    sync (⟨[⟨0, "MEMORY.md"⟩], 1⟩ : NStore) [entryA, entryB]
      = some (⟨[⟨0, "MEMORY.md"⟩], 1⟩, ⟨0, 2, 0⟩) ∧
    sync emptyStore [entryC, entryD]
      = some (⟨[⟨0, "a.md"⟩], 1⟩, ⟨0, 2, 0⟩) ∧
    sync (⟨[⟨0, "a.md"⟩], 1⟩ : NStore) [entryC, entryD]
      = some (⟨[⟨0, "a.md"⟩, ⟨1, "2024-a.md"⟩], 2⟩, ⟨0, 2, 0⟩) := by
  decide

theorem pyContains_refl (s : String) : pyContains s s = true := by
  unfold pyContains
  cases hd : s.data with
  | nil => rfl
  | cons c t =>
    show listContainsSub (c :: t) (c :: t) = true
    simp only [listContainsSub]
    rw [List.isPrefixOf_iff_prefix.mpr (List.prefix_refl _)]
    rfl

/-- When the body conversion terminates, `process_entry` completes and its
result is the one described by `processT`. -/
theorem process_entry_eq (st : NStore) (e : Entry) (hc : ConvOK e) :
    process_entry st e = some (processT st e) := by
  unfold process_entry processT
  by_cases hg : e.body ≠ "" ∧ 50 < e.body.length
  · rw [if_pos hg]
    cases hcv : convert e.body with
    | none =>
      have h1 := hc hg
      rw [hcv] at h1
      exact Bool.noConfusion h1
    | some blocks =>
      cases query_by_source_file st e.file <;> rfl
  · rw [if_neg hg]
    cases query_by_source_file st e.file <;> rfl

/-- When the body conversion terminates, one loop iteration completes and
agrees with `syncStepT`. -/
theorem syncStep_eq_some (acc : NStore × SyncStats) (e : Entry) (hc : ConvOK e) :
    syncStep acc e = some (syncStepT acc e) := by
  unfold syncStep syncStepT
  rw [process_entry_eq acc.1 e hc]
  cases hpe : processT acc.1 e with
  | mk st2 pid =>
    dsimp only
    cases pid with
    | none => rfl
    | some p =>
      by_cases h2 : (query_by_source_file st2 e.file).isSome = true <;> simp [h2]

/-- When every entry's body conversion terminates, the batch fold
completes and agrees with the total fold over `syncStepT`. -/
theorem syncFold_eq (es : List Entry) :
    ∀ acc : NStore × SyncStats, (∀ e ∈ es, ConvOK e) →
      es.foldlM syncStep acc = some (es.foldl syncStepT acc) := by
  induction es with
  | nil => intro acc _; rfl
  | cons e rest ih =>
    intro acc hc
    rw [List.foldlM_cons, syncStep_eq_some acc e (hc e (by simp)), List.foldl_cons]
    exact ih (syncStepT acc e) (fun e2 he2 => hc e2 (List.mem_cons_of_mem e he2))

/-- Pairwise file compatibility: two entry files are either identical or
neither contains the other, so the per-file "contains" lookup cannot
cross-match. -/
def filesCompatible (entries : List Entry) : Bool :=
  entries.all (fun a => entries.all (fun b =>
    a.file == b.file || (!(pyContains a.file b.file) && !(pyContains b.file a.file))))

def CompatFiles (files : List String) : Prop :=
  ∀ f ∈ files, ∀ g ∈ files,
    f = g ∨ (pyContains f g = false ∧ pyContains g f = false)

/-- Store invariant maintained by the sync loops: page ids are distinct
and below `nextId`, and every stored `Source File` is one of the files in
play. -/
def StInv (files : List String) (st : NStore) : Prop :=
  (st.pages.map Page.pid).Nodup ∧
  (∀ p ∈ st.pages, p.pid < st.nextId) ∧
  (∀ p ∈ st.pages, p.sourceFile ∈ files)

theorem query_found (files : List String) (st : NStore) (f : String)
    (hinv : StInv files st) (hcomp : CompatFiles files) (hf : f ∈ files)
    {pid : Nat} (h : query_by_source_file st f = some pid) :
    ∃ p ∈ st.pages, p.pid = pid ∧ p.sourceFile = f := by
  unfold query_by_source_file at h
  cases hq : st.pages.find? (fun p => pyContains p.sourceFile f) with
  | none => rw [hq] at h; cases h
  | some p =>
    rw [hq] at h
    have hpe : p ∈ st.pages := List.mem_of_find?_eq_some hq
    have hmatch0 := List.find?_some hq
    have hmatch : pyContains p.sourceFile f = true := hmatch0
    have hpf : p.sourceFile ∈ files := hinv.2.2 p hpe
    rcases hcomp p.sourceFile hpf f hf with heq | ⟨hc1, _⟩
    · exact ⟨p, hpe, Option.some.inj h, heq⟩
    · rw [hmatch] at hc1; cases hc1

theorem query_isSome_of_page (st : NStore) (f : String)
    (hp : ∃ p ∈ st.pages, p.sourceFile = f) :
    ∃ pid, query_by_source_file st f = some pid := by
  obtain ⟨p, hpmem, hsf⟩ := hp
  have hs : (st.pages.find? (fun p => pyContains p.sourceFile f)).isSome := by
    rw [List.find?_isSome]
    exact ⟨p, hpmem, by rw [hsf]; exact pyContains_refl f⟩
  cases hq : st.pages.find? (fun p => pyContains p.sourceFile f) with
  | none => rw [hq] at hs; cases hs
  | some p2 => exact ⟨p2.pid, by unfold query_by_source_file; rw [hq]; rfl⟩

theorem update_noop (st : NStore) {pid : Nat} {f : String}
    (hnd : (st.pages.map Page.pid).Nodup)
    (hp : ∃ p ∈ st.pages, p.pid = pid ∧ p.sourceFile = f) :
    update_page st pid f = st := by
  obtain ⟨p0, hp0, hpid, hsf⟩ := hp
  unfold update_page
  have hcongr : ∀ q ∈ st.pages,
      (if q.pid = pid then { q with sourceFile := f } else q) = q := by
    intro q hq
    by_cases hqp : q.pid = pid
    · rw [if_pos hqp]
      have hq0 : q = p0 :=
        List.inj_on_of_nodup_map hnd hq hp0 (by rw [hqp, hpid])
      rw [hq0]
      obtain ⟨pid0, sf0⟩ := p0
      simp only [Page.mk.injEq] at hsf ⊢
      exact ⟨trivial, hsf.symm⟩
    · rw [if_neg hqp]
  rw [List.map_congr_left hcongr]
  show ({ pages := st.pages.map (fun q => q), nextId := st.nextId } : NStore) = st
  rw [show st.pages.map (fun q => q) = st.pages from List.map_id' st.pages]

theorem syncStepT_update (st : NStore) (stats : SyncStats) (e : Entry) (pid : Nat)
    (hq : query_by_source_file st e.file = some pid)
    (hupd : update_page st pid e.file = st) :
    syncStepT (st, stats) e = (st, { stats with updated := stats.updated + 1 }) := by
  unfold syncStepT processT
  rw [hq]
  dsimp only
  rw [hupd, hq]
  rfl

theorem sync_run1 (files : List String) (hcomp : CompatFiles files) :
    ∀ (es : List Entry) (st : NStore) (stats : SyncStats),
      (∀ e ∈ es, e.file ∈ files) → StInv files st →
      StInv files (es.foldl syncStepT (st, stats)).1 ∧
      (∀ p ∈ st.pages, p ∈ (es.foldl syncStepT (st, stats)).1.pages) ∧
      (∀ e ∈ es, ∃ p ∈ (es.foldl syncStepT (st, stats)).1.pages, p.sourceFile = e.file) := by
  intro es
  induction es with
  | nil =>
    intro st stats hes hinv
    exact ⟨hinv, fun p hp => hp, by intro e he; cases he⟩
  | cons e rest ih =>
    intro st stats hes hinv
    rw [List.foldl_cons]
    cases hq : query_by_source_file st e.file with
    | some pid =>
      have hfound := query_found files st e.file hinv hcomp (hes e (by simp)) hq
      have hupd : update_page st pid e.file = st := update_noop st hinv.1 hfound
      rw [syncStepT_update st stats e pid hq hupd]
      obtain ⟨i1, i2, i3⟩ := ih st _ (fun e2 he2 => hes e2 (by simp [he2])) hinv
      refine ⟨i1, i2, ?_⟩
      intro e2 he2
      rcases List.mem_cons.mp he2 with he2e | he2r
      · obtain ⟨p, hpmem, _, hpsf⟩ := hfound
        exact ⟨p, i2 p hpmem, by rw [hpsf, he2e]⟩
      · exact i3 e2 he2r
    | none =>
      have hmemnew : ({ pid := st.nextId, sourceFile := e.file } : Page)
          ∈ (create_page st e.file).1.pages := by
        unfold create_page
        simp
      have hstep : syncStepT (st, stats) e
          = ((create_page st e.file).1, { stats with updated := stats.updated + 1 }) := by
        unfold syncStepT processT
        rw [hq]
        dsimp only
        obtain ⟨pid2, hq2⟩ := query_isSome_of_page (create_page st e.file).1 e.file
          ⟨_, hmemnew, rfl⟩
        rw [hq2]
        rfl
      rw [hstep]
      have hinv1 : StInv files (create_page st e.file).1 := by
        obtain ⟨hnd, hbound, hfile⟩ := hinv
        refine ⟨?_, ?_, ?_⟩
        · show ((st.pages ++ [({ pid := st.nextId, sourceFile := e.file } : Page)]).map
              Page.pid).Nodup
          rw [List.map_append, List.nodup_append]
          refine ⟨hnd, List.nodup_singleton _, ?_⟩
          intro x hx hx2
          simp only [List.map_cons, List.map_nil, List.mem_singleton] at hx2
          obtain ⟨p, hpmem, hppid⟩ := List.mem_map.mp hx
          subst hx2
          exact absurd (hppid ▸ hbound p hpmem) (lt_irrefl _)
        · intro p hp
          show p.pid < st.nextId + 1
          rcases List.mem_append.mp hp with hold | hnew
          · exact Nat.lt_succ_of_lt (hbound p hold)
          · rw [List.mem_singleton.mp hnew]
            exact Nat.lt_succ_self _
        · intro p hp
          rcases List.mem_append.mp hp with hold | hnew
          · exact hfile p hold
          · rw [List.mem_singleton.mp hnew]
            exact hes e (by simp)
      obtain ⟨i1, i2, i3⟩ := ih (create_page st e.file).1 _
        (fun e2 he2 => hes e2 (by simp [he2])) hinv1
      refine ⟨i1, ?_, ?_⟩
      · intro p hp
        refine i2 p ?_
        show p ∈ st.pages ++ [_]
        exact List.mem_append.mpr (Or.inl hp)
      · intro e2 he2
        rcases List.mem_cons.mp he2 with he2e | he2r
        · exact ⟨_, i2 _ hmemnew, by rw [he2e]⟩
        · exact i3 e2 he2r

theorem sync_run2 (files : List String) (hcomp : CompatFiles files) :
    ∀ (es : List Entry) (st : NStore) (stats : SyncStats),
      (∀ e ∈ es, e.file ∈ files ∧ ∃ p ∈ st.pages, p.sourceFile = e.file) →
      StInv files st →
      es.foldl syncStepT (st, stats)
        = (st, { stats with updated := stats.updated + es.length }) := by
  intro es
  induction es with
  | nil =>
    intro st stats _ _
    cases stats
    simp
  | cons e rest ih =>
    intro st stats hes hinv
    obtain ⟨hf, hpage⟩ := hes e (by simp)
    obtain ⟨pid, hq⟩ := query_isSome_of_page st e.file hpage
    have hfound := query_found files st e.file hinv hcomp hf hq
    have hupd : update_page st pid e.file = st := update_noop st hinv.1 hfound
    rw [List.foldl_cons, syncStepT_update st stats e pid hq hupd,
        ih st _ (fun e2 he2 => hes e2 (by simp [he2])) hinv]
    cases stats
    simp only [Prod.mk.injEq, SyncStats.mk.injEq, List.length_cons]
    exact ⟨trivial, trivial, by omega, trivial⟩

/-- C10 amended: starting from an empty store, when the entry files are
pairwise compatible (identical, or neither a substring of the other) and
every entry's body conversion terminates (it is invoked whenever the body
exceeds 50 characters, also on the update path), both runs complete; the
second run over unchanged input performs zero creates and zero failures
and exactly one update per *processed entry* — `M` updates for the `M`
entries processed, leaving the store unchanged. This is not the claimed
"N updates for the N entries created on the first run": the first run
creates one page per distinct file (all entries of a file share it), so N
can be smaller than M; without the compatibility hypothesis the
contains-lookup can cross-match entangled file names, overwrite a page's
`Source File` on update, and even create pages on the second run; and
without the conversion-termination hypothesis the run hangs inside
`process_entry` (the `'* '` bug of C1) and dispatches nothing at all. -/
theorem resync_updates_when_files_independent (entries : List Entry)
    (h : filesCompatible entries = true)
    (hb : bodiesConvertible entries = true) :
    ∃ st1 stats1, sync emptyStore entries = some (st1, stats1) ∧
      sync st1 entries = some (st1, ⟨0, entries.length, 0⟩) := by
  have hconv : ∀ e ∈ entries, ConvOK e := by
    intro e he hg
    have h1 := List.all_eq_true.mp hb e he
    rw [if_pos hg] at h1
    exact h1
  have hcomp : CompatFiles (entries.map Entry.file) := by
    intro f hf g hg
    obtain ⟨e1, he1, rfl⟩ := List.mem_map.mp hf
    obtain ⟨e2, he2, rfl⟩ := List.mem_map.mp hg
    have h1 := (List.all_eq_true.mp ((List.all_eq_true.mp h) e1 he1)) e2 he2
    rcases Bool.or_eq_true_iff.mp h1 with heq | hand
    · exact Or.inl (eq_of_beq heq)
    · obtain ⟨hc1, hc2⟩ := Bool.and_eq_true_iff.mp hand
      rw [Bool.not_eq_true'] at hc1 hc2
      exact Or.inr ⟨hc1, hc2⟩
  have hinv0 : StInv (entries.map Entry.file) emptyStore :=
    ⟨List.nodup_nil, fun p hp => absurd hp (List.not_mem_nil p),
     fun p hp => absurd hp (List.not_mem_nil p)⟩
  have hfiles : ∀ e ∈ entries, e.file ∈ entries.map Entry.file :=
    fun e he => List.mem_map_of_mem Entry.file he
  obtain ⟨hinv1, _, hcover⟩ :=
    sync_run1 (entries.map Entry.file) hcomp entries emptyStore ⟨0, 0, 0⟩ hfiles hinv0
  refine ⟨(entries.foldl syncStepT (emptyStore, ⟨0, 0, 0⟩)).1,
          (entries.foldl syncStepT (emptyStore, ⟨0, 0, 0⟩)).2, ?_, ?_⟩
  · show entries.foldlM syncStep (emptyStore, ⟨0, 0, 0⟩) = _
    rw [syncFold_eq entries (emptyStore, ⟨0, 0, 0⟩) hconv]
  · have h2 := sync_run2 (entries.map Entry.file) hcomp entries
      (entries.foldl syncStepT (emptyStore, ⟨0, 0, 0⟩)).1 ⟨0, 0, 0⟩
      (fun e he => ⟨hfiles e he, hcover e he⟩) hinv1
    show entries.foldlM syncStep
        ((entries.foldl syncStepT (emptyStore, ⟨0, 0, 0⟩)).1, ⟨0, 0, 0⟩) = _
    rw [syncFold_eq entries _ hconv, h2]
    simp

/-- Witness for `resync_updates_when_files_independent` with two entries
sharing one file. -/
def entryW1 : Entry :=
  { title := "W1", body := "", source := "daily", file := "w.md",
    date := some "w", section_name := "S" }

def entryW2 : Entry :=
  { title := "W2", body := "", source := "daily", file := "w.md",
    date := some "w", section_name := "S" }

theorem resync_updates_witness :
    filesCompatible [entryW1, entryW2] = true ∧
    bodiesConvertible [entryW1, entryW2] = true ∧
    ∃ st1 stats1, sync emptyStore [entryW1, entryW2] = some (st1, stats1) ∧
      sync st1 [entryW1, entryW2]
        = some (st1, ⟨0, ([entryW1, entryW2] : List Entry).length, 0⟩) :=
  ⟨by decide, by decide,
   resync_updates_when_files_independent [entryW1, entryW2] (by decide) (by decide)⟩

end NotionSync
